import Mathlib

/-!
Verification development for the election-results-reporting backend
(`server/api/elections.py`, `server/api/jurisdictions.py`, `server/models.py`,
`server/activity_log/slack_worker.py`).

The Python code is shallowly embedded: ORM tables become lists of row
structures, `session.add` becomes a checked insert (uniqueness constraints of
`models.py` are enforced at insert time, which has the same all-or-nothing
outcome as SQLAlchemy enforcing them at flush inside the nested transaction),
`uuid.uuid4()` becomes a fresh-id counter, and raised exceptions become
`Except` errors.  A `with session.begin_nested()` block that raises rolls every
write back, so each bulk operation also gets a `run...` wrapper returning the
unchanged database on error.
-/

set_option autoImplicit false

namespace ElRep

/-- Errors raised by the embedded code.  `badRequest` is werkzeug's
`BadRequest` (the validation kind), `conflict` is werkzeug's `Conflict`,
`uniqueViolation` is a database uniqueness-constraint failure
(`IntegrityError`), `multipleResultsFound` is SQLAlchemy's error for
`.one_or_none()` on more than one row, and `indexError` is a Python
`IndexError`. -/
inductive ApiError where
  | badRequest (msg : String)
  | conflict (msg : String)
  | uniqueViolation (msg : String)
  | multipleResultsFound
  | indexError
  deriving DecidableEq, Repr

/-- Validation-kind errors in the spec's error taxonomy (werkzeug
`BadRequest`). -/
def ApiError.isValidation : ApiError → Bool
  | .badRequest _ => true
  | _ => false

/-- Conflict-kind errors in the spec's error taxonomy: werkzeug `Conflict`
and uniqueness-constraint violations (the spec classifies duplicate-name and
duplicate-submission constraint failures as conflict errors). -/
def ApiError.isConflictKind : ApiError → Bool
  | .conflict _ => true
  | .uniqueViolation _ => true
  | _ => false

/-- The message text carried by an error. -/
def ApiError.message : ApiError → String
  | .badRequest m => m
  | .conflict m => m
  | .uniqueViolation m => m
  | .multipleResultsFound => "Multiple rows were found when one or none was required"
  | .indexError => "list index out of range"

instance {ε α : Type} [DecidableEq ε] [DecidableEq α] : DecidableEq (Except ε α) :=
  fun a b =>
    match a, b with
    | .error e₁, .error e₂ =>
        if h : e₁ = e₂ then .isTrue (by rw [h])
        else .isFalse (by intro hh; cases hh; exact h rfl)
    | .error _, .ok _ => .isFalse (by intro hh; cases hh)
    | .ok _, .error _ => .isFalse (by intro hh; cases hh)
    | .ok a₁, .ok a₂ =>
        if h : a₁ = a₂ then .isTrue (by rw [h])
        else .isFalse (by intro hh; cases hh; exact h rfl)

/-- Primary keys.  `models.py` uses opaque strings; rows created by the bulk
loaders get `str(uuid.uuid4())`, modelled as `gen n` drawn from a fresh
counter, while pre-existing (seeded) rows may carry any id. -/
inductive RowId where
  | named (s : String)
  | gen (n : Nat)
  deriving DecidableEq, Repr

/-- True when a generated id is below the fresh-id counter bound (a `named`
id is never generated, so it is vacuously bounded). -/
def RowId.genLt : RowId → Nat → Bool
  | .named _, _ => true
  | .gen n, b => n < b

/-! ### File processing wrapper (claim C9)

`server/util/process_file.py` is not among the provided sources; only its
caller `process_definitions_file` (`server/api/elections.py`) and the `File`
columns (`models.py`) are.  The wrapper itself is therefore modelled from the
spec. -/

/-- The processing-bookkeeping columns of `File` (`server/models.py`):
`processing_started_at`, `processing_completed_at`, `processing_error`, all
nullable. -/
structure FileRow where
  processing_started_at : Option Nat
  processing_completed_at : Option Nat
  processing_error : Option String
  deriving DecidableEq, Repr

/-- Modelled from the spec: `server/util/process_file.py` (`process_file`) is
not under the provided sources.  Per the spec's contract, given a `File`
record and a zero-argument unit of work it records
`processing_started_at = now`, executes the unit of work, on success records
`processing_completed_at = now`, and on failure captures the error's message
into `processing_error`, still records `processing_completed_at`, and
re-raises.  `now₁`/`now₂` are the clock readings at start and finish; the
second component of the result is the re-raised error, if any. -/
def process_file (now₁ now₂ : Nat) (file : FileRow) (work : Except String Unit) :
    FileRow × Option String :=
  let started := { file with processing_started_at := some now₁ }
  match work with
  | .ok _ =>
      ({ started with processing_completed_at := some now₂ }, none)
  | .error msg =>
      ({ started with
          processing_error := some msg,
          processing_completed_at := some now₂ }, some msg)

/-! ### ActivityLogRecord columns (claim C7)

`models.py` (lines 408–417) declares `ActivityLogRecord` with exactly the
columns below — there is no posted timestamp — while
`server/activity_log/slack_worker.py` filters on and assigns
`ActivityLogRecord.posted_to_slack_at` (lines 129 and 151). -/

/-- The columns of `ActivityLogRecord` as declared in `server/models.py`. -/
def activityLogRecordColumns : List String :=
  ["id", "timestamp", "organization_id", "activity_name", "info"]

/-- The `ActivityLogRecord` attributes that
`server/activity_log/slack_worker.py` reads or writes in
`send_new_slack_notification`. -/
def slackWorkerActivityLogColumns : List String :=
  ["posted_to_slack_at", "organization_id", "timestamp", "activity_name", "info", "id"]

/-! ### Election results upload (claims C2, C10)

`server/api/jurisdictions.py`: `validate_election_result` (lines 122–132) and
`upload_election_results` (lines 180–199).  The `ElectionResult` table
(`models.py`) has `UniqueConstraint("precinct_id", "candidate_id")`; the
payload's `precinct` and the candidates' `id`s are strings straight from the
request JSON. -/

/-- A row of the `ElectionResult` table (`server/models.py`). -/
structure ResultRow where
  id : RowId
  source : String
  precinct_id : String
  candidate_id : String
  num_votes : Nat
  deriving DecidableEq, Repr

/-- The `ElectionResult` table together with the fresh-id counter for
`str(uuid.uuid4())`. -/
structure ResultsDB where
  election_results : List ResultRow
  next_id : Nat
  deriving DecidableEq, Repr

/-- One entry of a payload contest's `candidates` array (`id`, `numVotes`). -/
structure CandidateResult where
  id : String
  numVotes : Nat
  deriving DecidableEq, Repr

/-- One entry of the payload's `contests` array. -/
structure ContestResult where
  id : String
  candidates : List CandidateResult
  deriving DecidableEq, Repr

/-- A results-submission payload (after schema validation): `source`,
`precinct`, `contests`. -/
structure ResultsPayload where
  source : String
  precinct : String
  contests : List ContestResult
  deriving DecidableEq, Repr

/-- The loop inside `validate_election_result`: for every contest of the
payload, look for an existing `ElectionResult` row for
`(payload precinct, first listed candidate of the contest)`; accumulate
whether any was found.  `itr_contest["candidates"][0]` raises `IndexError`
when a contest lists no candidates. -/
def recordFoundLoop (db : ResultsDB) (precinct : String) :
    List ContestResult → Bool → Except ApiError Bool
  | [], found => .ok found
  | c :: rest, found =>
      match c.candidates.head? with
      | none => .error .indexError
      | some c0 =>
          recordFoundLoop db precinct rest
            (found || db.election_results.any fun r =>
              r.precinct_id == precinct && r.candidate_id == c0.id)

/-- `validate_election_result` (`server/api/jurisdictions.py`, lines
122–132), after the JSON-schema check: raise `Conflict` when a row was found
for some contest's first listed candidate in this precinct. -/
def validate_election_result (db : ResultsDB) (payload : ResultsPayload) :
    Except ApiError Unit := do
  let found ← recordFoundLoop db payload.precinct payload.contests false
  if found then
    .error (.conflict "Results for this precinct are already uploaded")
  else
    .ok ()

/-- Checked insert into `ElectionResult`, enforcing
`UniqueConstraint("precinct_id", "candidate_id")`.  SQLAlchemy raises the
violation at commit; since `db_session.commit()` either persists every added
row or none, checking at insert time yields the same observable outcome. -/
def insertResultRow (db : ResultsDB) (r : ResultRow) : Except ApiError ResultsDB :=
  if db.election_results.any fun x =>
      x.precinct_id == r.precinct_id && x.candidate_id == r.candidate_id then
    .error (.uniqueViolation "election_result_precinct_id_candidate_id_key")
  else
    .ok { db with election_results := db.election_results ++ [r] }

/-- The inner insertion loop of `upload_election_results`: one
`ElectionResult` row per candidate entry of one contest, in payload order. -/
def insertCandidateResults (source precinct : String) :
    List CandidateResult → ResultsDB → Except ApiError ResultsDB
  | [], db => .ok db
  | cand :: rest, db => do
      let db' ← insertResultRow { db with next_id := db.next_id + 1 }
        { id := .gen db.next_id
          source := source
          precinct_id := precinct
          candidate_id := cand.id
          num_votes := cand.numVotes }
      insertCandidateResults source precinct rest db'

/-- The insertion loop of `upload_election_results`: one `ElectionResult` row
per `(contest, candidate)` entry of the payload, in payload order. -/
def insertResultRows (source precinct : String) :
    List ContestResult → ResultsDB → Except ApiError ResultsDB
  | [], db => .ok db
  | c :: rest, db => do
      let db ← insertCandidateResults source precinct c.candidates db
      insertResultRows source precinct rest db

/-- `upload_election_results` (`server/api/jurisdictions.py`, lines 180–199):
validate, reject payloads whose `contests` repeat a contest id (Python
compares `len(contests)` with the cardinality of the set of ids), then insert
one row per candidate entry and commit. -/
def upload_election_results (db : ResultsDB) (election_name jurisdiction_name : String)
    (payload : ResultsPayload) : Except ApiError ResultsDB := do
  validate_election_result db payload
  if payload.contests.length ≠ (payload.contests.map fun c => c.id).dedup.length then
    .error (.conflict ("Contests should be unique for (" ++ election_name ++ " - " ++
      jurisdiction_name ++ ") results"))
  else
    insertResultRows payload.source payload.precinct payload.contests db

/-- The route-level observable outcome: on any raised error the transaction
is not committed, so the table is unchanged. -/
def runUploadElectionResults (db : ResultsDB) (election_name jurisdiction_name : String)
    (payload : ResultsPayload) : ResultsDB × Option ApiError :=
  match upload_election_results db election_name jurisdiction_name payload with
  | .ok db' => (db', none)
  | .error e => (db, some e)

/-- The observable content of an `ElectionResult` row:
`(precinct_id, candidate_id, num_votes)`. -/
def resultView (r : ResultRow) : String × String × Nat :=
  (r.precinct_id, r.candidate_id, r.num_votes)

/-- The `(precinct, candidate id, numVotes)` triples a payload asks to
write, one per `(contest, candidate)` entry, in payload order. -/
def payloadRows (p : ResultsPayload) : List (String × String × Nat) :=
  p.contests.flatMap fun c => c.candidates.map fun cd => (p.precinct, cd.id, cd.numVotes)

/-- All candidate ids mentioned by a payload, in payload order. -/
def payloadCandidateIds (p : ResultsPayload) : List String :=
  p.contests.flatMap fun c => c.candidates.map fun cd => cd.id

/-- Whether the table already holds a row for
`(payload precinct, first listed candidate of contest c)` — the only check
`validate_election_result` performs per contest. -/
def contestHeadHitB (db : ResultsDB) (precinct : String) (c : ContestResult) : Bool :=
  match c.candidates.head? with
  | none => false
  | some c0 =>
      db.election_results.any fun r =>
        r.precinct_id == precinct && r.candidate_id == c0.id

/-- Some contest of the payload lists as first candidate one that already has
a result row for the payload's precinct. -/
def HeadHit (db : ResultsDB) (p : ResultsPayload) : Prop :=
  ∃ c ∈ p.contests, ∃ c0, c.candidates.head? = some c0 ∧
    ∃ r ∈ db.election_results, r.precinct_id = p.precinct ∧ r.candidate_id = c0.id

theorem recordFoundLoop_eq (db : ResultsDB) (pr : String) (cs : List ContestResult)
    (b : Bool) (h : ∀ c ∈ cs, c.candidates ≠ []) :
    recordFoundLoop db pr cs b = .ok (b || cs.any (contestHeadHitB db pr)) := by
  induction cs generalizing b with
  | nil => simp [recordFoundLoop]
  | cons c rest ih =>
      obtain ⟨c0, cs0, hc0⟩ := List.exists_cons_of_ne_nil (h c (List.mem_cons_self c rest))
      rw [recordFoundLoop, hc0]
      simp only [List.head?]
      rw [ih _ fun x hx => h x (List.mem_cons_of_mem _ hx)]
      simp [contestHeadHitB, hc0, Bool.or_assoc]

theorem validate_election_result_eq (db : ResultsDB) (p : ResultsPayload)
    (h : ∀ c ∈ p.contests, c.candidates ≠ []) :
    validate_election_result db p =
      if p.contests.any (contestHeadHitB db p.precinct) then
        .error (.conflict "Results for this precinct are already uploaded")
      else .ok () := by
  unfold validate_election_result
  rw [recordFoundLoop_eq db p.precinct p.contests false h]
  cases p.contests.any (contestHeadHitB db p.precinct) <;> rfl

theorem headHit_iff_any (db : ResultsDB) (p : ResultsPayload) :
    HeadHit db p ↔ p.contests.any (contestHeadHitB db p.precinct) = true := by
  unfold HeadHit
  rw [List.any_eq_true]
  constructor
  · rintro ⟨c, hc, c0, hh, r, hr, h1, h2⟩
    refine ⟨c, hc, ?_⟩
    unfold contestHeadHitB
    rw [hh, List.any_eq_true]
    exact ⟨r, hr, by simp [h1, h2]⟩
  · rintro ⟨c, hc, hx⟩
    unfold contestHeadHitB at hx
    cases hh : c.candidates.head? with
    | none => rw [hh] at hx; simp at hx
    | some c0 =>
        rw [hh, List.any_eq_true] at hx
        obtain ⟨r, hr, hb⟩ := hx
        rw [Bool.and_eq_true, beq_iff_eq, beq_iff_eq] at hb
        exact ⟨c, hc, c0, hh, r, hr, hb.1, hb.2⟩

theorem insertCandidateResults_ok (source pr : String) (cands : List CandidateResult)
    (db : ResultsDB)
    (hfresh : ∀ r ∈ db.election_results, r.precinct_id = pr →
      r.candidate_id ∉ cands.map fun cd => cd.id)
    (hnodup : (cands.map fun cd => cd.id).Nodup) :
    ∃ db', insertCandidateResults source pr cands db = .ok db' ∧
      db'.election_results.map resultView =
        db.election_results.map resultView ++
          (cands.map fun cd => (pr, cd.id, cd.numVotes)) ∧
      ∀ r ∈ db'.election_results, r ∈ db.election_results ∨
        (r.precinct_id = pr ∧ r.candidate_id ∈ cands.map fun cd => cd.id) := by
  induction cands generalizing db with
  | nil => exact ⟨db, rfl, by simp, fun r hr => Or.inl hr⟩
  | cons cd rest ih =>
      have hnone : (db.election_results.any fun x =>
          x.precinct_id == pr && x.candidate_id == cd.id) = false := by
        rw [List.any_eq_false]
        intro x hx
        rw [Bool.and_eq_true, beq_iff_eq, beq_iff_eq]
        rintro ⟨h1, h2⟩
        exact hfresh x hx h1 (by simp [h2])
      set newRow : ResultRow :=
        ⟨.gen db.next_id, source, pr, cd.id, cd.numVotes⟩ with hnew
      have hstep : insertCandidateResults source pr (cd :: rest) db =
          insertCandidateResults source pr rest
            ⟨db.election_results ++ [newRow], db.next_id + 1⟩ := by
        rw [insertCandidateResults]
        simp only [insertResultRow, hnone, Bool.false_eq_true, if_false]
        rfl
      have hrest := ih ⟨db.election_results ++ [newRow], db.next_id + 1⟩
        (by
          intro r hr h1
          simp only [List.mem_append, List.mem_singleton] at hr
          rcases hr with hr | hr
          · intro hmem
            exact hfresh r hr h1 (List.mem_cons_of_mem _ hmem)
          · subst hr
            simp only [hnew]
            intro hmem
            have := (List.nodup_cons.mp hnodup).1
            exact this hmem)
        (List.nodup_cons.mp hnodup).2
      obtain ⟨db', hdb', hview, hmem⟩ := hrest
      refine ⟨db', by rw [hstep]; exact hdb', ?_, ?_⟩
      · rw [hview]
        simp [hnew, resultView]
      · intro r hr
        rcases hmem r hr with hm | hm
        · simp only [List.mem_append, List.mem_singleton] at hm
          rcases hm with hm | hm
          · exact Or.inl hm
          · subst hm
            exact Or.inr ⟨rfl, by simp⟩
        · exact Or.inr ⟨hm.1, List.mem_cons_of_mem _ hm.2⟩

theorem insertResultRows_ok (source pr : String) (cs : List ContestResult)
    (db : ResultsDB)
    (hfresh : ∀ r ∈ db.election_results, r.precinct_id = pr →
      r.candidate_id ∉ cs.flatMap fun c => c.candidates.map fun cd => cd.id)
    (hnodup : (cs.flatMap fun c => c.candidates.map fun cd => cd.id).Nodup) :
    ∃ db', insertResultRows source pr cs db = .ok db' ∧
      db'.election_results.map resultView =
        db.election_results.map resultView ++
          cs.flatMap (fun c => c.candidates.map fun cd => (pr, cd.id, cd.numVotes)) ∧
      ∀ r ∈ db'.election_results, r ∈ db.election_results ∨
        (r.precinct_id = pr ∧
          r.candidate_id ∈ cs.flatMap fun c => c.candidates.map fun cd => cd.id) := by
  induction cs generalizing db with
  | nil => exact ⟨db, rfl, by simp, fun r hr => Or.inl hr⟩
  | cons c rest ih =>
      rw [List.flatMap_cons] at hnodup hfresh
      rw [List.nodup_append] at hnodup
      obtain ⟨hn1, hn2, hdisj⟩ := hnodup
      obtain ⟨db₂, hstep, hview₂, hmem₂⟩ := insertCandidateResults_ok source pr
        c.candidates db
        (fun r hr h1 hmem => hfresh r hr h1 (List.mem_append_left _ hmem)) hn1
      obtain ⟨db', hrest, hview', hmem'⟩ := ih db₂
        (by
          intro r hr h1 hmem
          rcases hmem₂ r hr with hm | hm
          · exact hfresh r hm h1 (List.mem_append_right _ hmem)
          · exact hdisj hm.2 hmem)
        hn2
      refine ⟨db', ?_, ?_, ?_⟩
      · rw [insertResultRows, hstep]
        exact hrest
      · rw [hview', hview₂, List.flatMap_cons, List.append_assoc]
      · intro r hr
        rcases hmem' r hr with hm | hm
        · rcases hmem₂ r hm with hm2 | hm2
          · exact Or.inl hm2
          · exact Or.inr ⟨hm2.1, List.mem_append_left _ hm2.2⟩
        · exact Or.inr ⟨hm.1, List.mem_append_right _ hm.2⟩

/-- Some candidate entry of the payload — in any position, not just a
contest's head — already has a result row for the payload's precinct: the
condition under which the `(precinct_id, candidate_id)` uniqueness
constraint fires during insertion. -/
def RecordedHit (db : ResultsDB) (p : ResultsPayload) : Prop :=
  ∃ c ∈ p.contests, ∃ cd ∈ c.candidates, ∃ r ∈ db.election_results,
    r.precinct_id = p.precinct ∧ r.candidate_id = cd.id

theorem recordedHit_of_headHit (db : ResultsDB) (p : ResultsPayload)
    (h : HeadHit db p) : RecordedHit db p := by
  obtain ⟨c, hc, c0, hh, r, hr, h1, h2⟩ := h
  refine ⟨c, hc, c0, ?_, r, hr, h1, h2⟩
  cases hcc : c.candidates with
  | nil => rw [hcc] at hh; cases hh
  | cons a t =>
      rw [hcc] at hh
      simp only [List.head?, Option.some.injEq] at hh
      rw [← hh]
      exact List.mem_cons_self a t

theorem insertResultRow_err (db : ResultsDB) (r : ResultRow)
    (h : (db.election_results.any fun x =>
      x.precinct_id == r.precinct_id && x.candidate_id == r.candidate_id) = true) :
    insertResultRow db r =
      .error (.uniqueViolation "election_result_precinct_id_candidate_id_key") := by
  unfold insertResultRow
  rw [if_pos h]

theorem insertCandidateResults_err (source pr : String)
    (cands : List CandidateResult) (db : ResultsDB)
    (hhit : ∃ cd ∈ cands, ∃ r ∈ db.election_results,
      r.precinct_id = pr ∧ r.candidate_id = cd.id) :
    insertCandidateResults source pr cands db =
      .error (.uniqueViolation "election_result_precinct_id_candidate_id_key") := by
  induction cands generalizing db with
  | nil =>
      obtain ⟨cd, hcd, -⟩ := hhit
      cases hcd
  | cons cd rest ih =>
      cases hany : (db.election_results.any fun x =>
          x.precinct_id == pr && x.candidate_id == cd.id) with
      | true =>
          have herr := insertResultRow_err { db with next_id := db.next_id + 1 }
            ⟨.gen db.next_id, source, pr, cd.id, cd.numVotes⟩ hany
          rw [insertCandidateResults, herr]
          rfl
      | false =>
          have hstep : insertCandidateResults source pr (cd :: rest) db =
              insertCandidateResults source pr rest
                ⟨db.election_results ++
                  [⟨.gen db.next_id, source, pr, cd.id, cd.numVotes⟩],
                  db.next_id + 1⟩ := by
            rw [insertCandidateResults]
            simp only [insertResultRow, hany, Bool.false_eq_true, if_false]
            rfl
          rw [hstep]
          obtain ⟨cd', hcd', r, hr, h1, h2⟩ := hhit
          rcases List.mem_cons.mp hcd' with hEq | hmem
          · exfalso
            subst hEq
            rw [List.any_eq_false] at hany
            apply hany r hr
            rw [Bool.and_eq_true, beq_iff_eq, beq_iff_eq]
            exact ⟨h1, h2⟩
          · exact ih _ ⟨cd', hmem, r, List.mem_append_left _ hr, h1, h2⟩

theorem insertResultRows_err (source pr : String) (cs : List ContestResult)
    (db : ResultsDB)
    (hnodup : (cs.flatMap fun c => c.candidates.map fun cd => cd.id).Nodup)
    (hhit : ∃ c ∈ cs, ∃ cd ∈ c.candidates, ∃ r ∈ db.election_results,
      r.precinct_id = pr ∧ r.candidate_id = cd.id) :
    insertResultRows source pr cs db =
      .error (.uniqueViolation "election_result_precinct_id_candidate_id_key") := by
  induction cs generalizing db with
  | nil =>
      obtain ⟨c, hc, -⟩ := hhit
      cases hc
  | cons c rest ih =>
      rw [List.flatMap_cons, List.nodup_append] at hnodup
      obtain ⟨hn1, hn2, hdisj⟩ := hnodup
      by_cases hchit : ∃ cd ∈ c.candidates, ∃ r ∈ db.election_results,
          r.precinct_id = pr ∧ r.candidate_id = cd.id
      · rw [insertResultRows, insertCandidateResults_err source pr c.candidates db hchit]
        rfl
      · have hfreshc : ∀ r ∈ db.election_results, r.precinct_id = pr →
            r.candidate_id ∉ c.candidates.map fun cd => cd.id := by
          intro r hr h1 hmem
          obtain ⟨cd, hcd, hcdid⟩ := List.mem_map.mp hmem
          exact hchit ⟨cd, hcd, r, hr, h1, hcdid.symm⟩
        obtain ⟨db₂, hstep, hview, -⟩ :=
          insertCandidateResults_ok source pr c.candidates db hfreshc hn1
        rw [insertResultRows, hstep]
        obtain ⟨c', hc', cd', hcd', r, hr, h1, h2⟩ := hhit
        rcases List.mem_cons.mp hc' with hEq | hcm
        · exfalso
          subst hEq
          exact hchit ⟨cd', hcd', r, hr, h1, h2⟩
        · have hrv : resultView r ∈ db₂.election_results.map resultView := by
            rw [hview]
            exact List.mem_append_left _ (List.mem_map_of_mem _ hr)
          obtain ⟨r2, hr2, hr2v⟩ := List.mem_map.mp hrv
          have h1' : r2.precinct_id = r.precinct_id := congrArg Prod.fst hr2v
          have h2' : r2.candidate_id = r.candidate_id :=
            congrArg (fun v => v.2.1) hr2v
          exact ih db₂ hn2
            ⟨c', hcm, cd', hcd', r2, hr2, h1'.trans h1, h2'.trans h2⟩

theorem no_precinct_rows_no_hit (db : ResultsDB) (p : ResultsPayload)
    (hfresh : ∀ r ∈ db.election_results, r.precinct_id ≠ p.precinct) :
    p.contests.any (contestHeadHitB db p.precinct) = false := by
  rw [List.any_eq_false]
  intro c _
  unfold contestHeadHitB
  cases hh : c.candidates.head? with
  | none => simp
  | some c0 =>
      show ¬ (db.election_results.any fun r =>
        r.precinct_id == p.precinct && r.candidate_id == c0.id) = true
      rw [Bool.not_eq_true, List.any_eq_false]
      intro r hr
      rw [Bool.and_eq_true, beq_iff_eq, beq_iff_eq]
      rintro ⟨h1, _⟩
      exact hfresh r hr h1

/-- C2 (amended): submitting a first well-formed `ElectionResult` payload to a
precinct with no existing rows succeeds and writes exactly one row per
`(contest, candidate)` entry; a second payload for the same precinct is
rejected by validation with the precinct conflict — before any of its rows
are written — exactly when some contest in it lists as first candidate one
that already has a row for that precinct (in particular, resubmitting the
first payload fails and the table keeps exactly the first payload's rows); a
second payload that passes that check is still rejected, with the
`(precinct_id, candidate_id)` uniqueness violation and the table unchanged,
when any of its candidate entries — in any position — is already recorded
for the precinct; only a second payload none of whose candidates is already
recorded is accepted. -/
theorem upload_election_results_precinct_resubmission
    (db : ResultsDB) (en jn : String) (p : ResultsPayload)
    (hfresh : ∀ r ∈ db.election_results, r.precinct_id ≠ p.precinct)
    (hne : ∀ c ∈ p.contests, c.candidates ≠ [])
    (hids : (p.contests.map fun c => c.id).Nodup)
    (hcands : (payloadCandidateIds p).Nodup) :
    (∃ db₁, runUploadElectionResults db en jn p = (db₁, none) ∧
       db₁.election_results.map resultView =
         db.election_results.map resultView ++ payloadRows p) ∧
    (∀ (db₂ : ResultsDB) (p2 : ResultsPayload),
       (∀ c ∈ p2.contests, c.candidates ≠ []) → HeadHit db₂ p2 →
       runUploadElectionResults db₂ en jn p2 =
         (db₂, some (.conflict "Results for this precinct are already uploaded"))) ∧
    (∀ (db₂ : ResultsDB) (p2 : ResultsPayload),
       (∀ c ∈ p2.contests, c.candidates ≠ []) →
       (p2.contests.map fun c => c.id).Nodup →
       (payloadCandidateIds p2).Nodup →
       ¬ HeadHit db₂ p2 → RecordedHit db₂ p2 →
       runUploadElectionResults db₂ en jn p2 =
         (db₂, some (.uniqueViolation
           "election_result_precinct_id_candidate_id_key"))) ∧
    (∀ (db₂ : ResultsDB) (p2 : ResultsPayload),
       (∀ c ∈ p2.contests, c.candidates ≠ []) →
       (p2.contests.map fun c => c.id).Nodup →
       (payloadCandidateIds p2).Nodup →
       ¬ RecordedHit db₂ p2 →
       ∃ db₃, runUploadElectionResults db₂ en jn p2 = (db₃, none) ∧
         db₃.election_results.map resultView =
           db₂.election_results.map resultView ++ payloadRows p2) := by
  refine ⟨?_, ?_, ?_, ?_⟩
  · obtain ⟨db₁, hok, hview, _⟩ := insertResultRows_ok p.source p.precinct p.contests db
      (fun r hr h1 _ => hfresh r hr h1) hcands
    refine ⟨db₁, ?_, hview⟩
    have hdedup : (p.contests.map fun c => c.id).dedup = p.contests.map fun c => c.id :=
      List.dedup_eq_self.mpr hids
    have hupload : upload_election_results db en jn p = .ok db₁ := by
      unfold upload_election_results
      rw [validate_election_result_eq db p hne, no_precinct_rows_no_hit db p hfresh]
      simp only [Bool.false_eq_true, if_false]
      rw [if_neg (by rw [hdedup, List.length_map]; exact fun h => h rfl)]
      show insertResultRows p.source p.precinct p.contests db = .ok db₁
      exact hok
    unfold runUploadElectionResults
    rw [hupload]
  · intro db₂ p2 hne2 hhit
    have hupload : upload_election_results db₂ en jn p2 =
        .error (.conflict "Results for this precinct are already uploaded") := by
      unfold upload_election_results
      rw [validate_election_result_eq db₂ p2 hne2, (headHit_iff_any db₂ p2).mp hhit]
      rfl
    unfold runUploadElectionResults
    rw [hupload]
  · intro db₂ p2 hne2 hids2 hcands2 hnohead hrec
    have hany : p2.contests.any (contestHeadHitB db₂ p2.precinct) = false := by
      cases hh : p2.contests.any (contestHeadHitB db₂ p2.precinct) with
      | false => rfl
      | true => exact absurd ((headHit_iff_any db₂ p2).mpr hh) hnohead
    have hdedup : (p2.contests.map fun c => c.id).dedup =
        p2.contests.map fun c => c.id :=
      List.dedup_eq_self.mpr hids2
    have hupload : upload_election_results db₂ en jn p2 =
        .error (.uniqueViolation "election_result_precinct_id_candidate_id_key") := by
      unfold upload_election_results
      rw [validate_election_result_eq db₂ p2 hne2, hany]
      simp only [Bool.false_eq_true, if_false]
      rw [if_neg (by rw [hdedup, List.length_map]; exact fun h => h rfl)]
      show insertResultRows p2.source p2.precinct p2.contests db₂ =
        .error (.uniqueViolation "election_result_precinct_id_candidate_id_key")
      exact insertResultRows_err p2.source p2.precinct p2.contests db₂ hcands2 hrec
    unfold runUploadElectionResults
    rw [hupload]
  · intro db₂ p2 hne2 hids2 hcands2 hnorec
    have hfresh₂ : ∀ r ∈ db₂.election_results, r.precinct_id = p2.precinct →
        r.candidate_id ∉ p2.contests.flatMap fun c =>
          c.candidates.map fun cd => cd.id := by
      intro r hr h1 hmem
      obtain ⟨c, hc, hmem2⟩ := List.mem_flatMap.mp hmem
      obtain ⟨cd, hcd, hcdid⟩ := List.mem_map.mp hmem2
      exact hnorec ⟨c, hc, cd, hcd, r, hr, h1, hcdid.symm⟩
    have hany : p2.contests.any (contestHeadHitB db₂ p2.precinct) = false := by
      cases hh : p2.contests.any (contestHeadHitB db₂ p2.precinct) with
      | false => rfl
      | true =>
          exact absurd
            (recordedHit_of_headHit db₂ p2 ((headHit_iff_any db₂ p2).mpr hh)) hnorec
    obtain ⟨db₃, hok, hview, -⟩ :=
      insertResultRows_ok p2.source p2.precinct p2.contests db₂ hfresh₂ hcands2
    refine ⟨db₃, ?_, hview⟩
    have hdedup : (p2.contests.map fun c => c.id).dedup =
        p2.contests.map fun c => c.id :=
      List.dedup_eq_self.mpr hids2
    have hupload : upload_election_results db₂ en jn p2 = .ok db₃ := by
      unfold upload_election_results
      rw [validate_election_result_eq db₂ p2 hne2, hany]
      simp only [Bool.false_eq_true, if_false]
      rw [if_neg (by rw [hdedup, List.length_map]; exact fun h => h rfl)]
      show insertResultRows p2.source p2.precinct p2.contests db₂ = .ok db₃
      exact hok
    unfold runUploadElectionResults
    rw [hupload]

/-- C2 counterexample: after a first successful payload for precinct `p1`
(contest `c1`, candidates `a`, `b`), a second payload for the same precinct
whose contest `c2` leads with a not-yet-recorded candidate `x` is accepted —
`validate_election_result` only checks each contest's first listed candidate —
so the claim that any second payload for the precinct fails is false: the
second upload returns no error and the table ends with three rows, not the
first payload's two. -/
theorem upload_election_results_second_payload_accepted_counterexample :
    (runUploadElectionResults
        (runUploadElectionResults ⟨[], 0⟩ "GE" "Kent"
          ⟨"Data Entry", "p1", [⟨"c1", [⟨"a", 10⟩, ⟨"b", 5⟩]⟩]⟩).1
        "GE" "Kent" ⟨"Data Entry", "p1", [⟨"c2", [⟨"x", 7⟩]⟩]⟩).2 = none ∧
    (runUploadElectionResults
        (runUploadElectionResults ⟨[], 0⟩ "GE" "Kent"
          ⟨"Data Entry", "p1", [⟨"c1", [⟨"a", 10⟩, ⟨"b", 5⟩]⟩]⟩).1
        "GE" "Kent" ⟨"Data Entry", "p1", [⟨"c2", [⟨"x", 7⟩]⟩]⟩).1.election_results.length = 3 ∧
    (runUploadElectionResults ⟨[], 0⟩ "GE" "Kent"
        ⟨"Data Entry", "p1", [⟨"c1", [⟨"a", 10⟩, ⟨"b", 5⟩]⟩]⟩).1.election_results.length = 2 := by
  decide

/-- C2 witness: the amended theorem applied to a concrete first payload. -/
theorem upload_election_results_first_ok_witness :
    (∃ db₁, runUploadElectionResults ⟨[], 0⟩ "GE" "Kent"
        ⟨"Data Entry", "p1", [⟨"c1", [⟨"a", 10⟩, ⟨"b", 5⟩]⟩]⟩ = (db₁, none) ∧
       db₁.election_results.map resultView =
         ([] : List ResultRow).map resultView ++
           payloadRows ⟨"Data Entry", "p1", [⟨"c1", [⟨"a", 10⟩, ⟨"b", 5⟩]⟩]⟩) ∧
    (∀ (db₂ : ResultsDB) (p2 : ResultsPayload),
       (∀ c ∈ p2.contests, c.candidates ≠ []) → HeadHit db₂ p2 →
       runUploadElectionResults db₂ "GE" "Kent" p2 =
         (db₂, some (.conflict "Results for this precinct are already uploaded"))) ∧
    (∀ (db₂ : ResultsDB) (p2 : ResultsPayload),
       (∀ c ∈ p2.contests, c.candidates ≠ []) →
       (p2.contests.map fun c => c.id).Nodup →
       (payloadCandidateIds p2).Nodup →
       ¬ HeadHit db₂ p2 → RecordedHit db₂ p2 →
       runUploadElectionResults db₂ "GE" "Kent" p2 =
         (db₂, some (.uniqueViolation
           "election_result_precinct_id_candidate_id_key"))) ∧
    (∀ (db₂ : ResultsDB) (p2 : ResultsPayload),
       (∀ c ∈ p2.contests, c.candidates ≠ []) →
       (p2.contests.map fun c => c.id).Nodup →
       (payloadCandidateIds p2).Nodup →
       ¬ RecordedHit db₂ p2 →
       ∃ db₃, runUploadElectionResults db₂ "GE" "Kent" p2 = (db₃, none) ∧
         db₃.election_results.map resultView =
           db₂.election_results.map resultView ++ payloadRows p2) :=
  upload_election_results_precinct_resubmission ⟨[], 0⟩ "GE" "Kent"
    ⟨"Data Entry", "p1", [⟨"c1", [⟨"a", 10⟩, ⟨"b", 5⟩]⟩]⟩
    (by decide) (by decide) (by decide) (by decide)

/-- C10 (amended): a payload repeating a contest id, each contest listing at
least one candidate, submitted when no contest's first candidate already has
a row for the precinct — so that `validate_election_result`, which runs
first, passes — is rejected by `upload_election_results` with a `Conflict`
naming the election and the jurisdiction, and no `ElectionResult` row is
written; a duplicate-contest payload that trips validation instead fails
with the precinct-already-uploaded conflict (naming neither), and one whose
contest lists no candidates fails with an `IndexError`. -/
theorem upload_election_results_duplicate_contest_conflict
    (db : ResultsDB) (en jn : String) (p : ResultsPayload)
    (hdup : ¬ (p.contests.map fun c => c.id).Nodup)
    (hne : ∀ c ∈ p.contests, c.candidates ≠ [])
    (hnohit : ¬ HeadHit db p) :
    runUploadElectionResults db en jn p =
      (db, some (.conflict ("Contests should be unique for (" ++ en ++ " - " ++
        jn ++ ") results"))) := by
  have hany : p.contests.any (contestHeadHitB db p.precinct) = false := by
    cases hh : p.contests.any (contestHeadHitB db p.precinct) with
    | false => rfl
    | true => exact absurd ((headHit_iff_any db p).mpr hh) hnohit
  have hlen : (p.contests.map fun c => c.id).dedup.length ≠ p.contests.length := by
    intro hEq
    apply hdup
    have hsub := List.dedup_sublist (p.contests.map fun c => c.id)
    have : (p.contests.map fun c => c.id).dedup = p.contests.map fun c => c.id :=
      hsub.eq_of_length_le (by rw [hEq, List.length_map])
    rw [← this]
    exact List.nodup_dedup _
  unfold runUploadElectionResults upload_election_results
  rw [validate_election_result_eq db p hne, hany]
  simp only [Bool.false_eq_true, if_false]
  rw [if_pos (fun hEq => hlen hEq.symm)]
  rfl

/-- C10 witness: the duplicate-contest theorem applied to a concrete
payload repeating contest id `c1`. -/
theorem upload_election_results_duplicate_contest_witness :
    runUploadElectionResults ⟨[], 0⟩ "GE" "Kent"
        ⟨"Data Entry", "p1", [⟨"c1", [⟨"a", 10⟩]⟩, ⟨"c1", [⟨"b", 5⟩]⟩]⟩ =
      (⟨[], 0⟩, some (.conflict "Contests should be unique for (GE - Kent) results")) :=
  upload_election_results_duplicate_contest_conflict ⟨[], 0⟩ "GE" "Kent"
    ⟨"Data Entry", "p1", [⟨"c1", [⟨"a", 10⟩]⟩, ⟨"c1", [⟨"b", 5⟩]⟩]⟩
    (by decide) (by decide)
    (by
      rintro ⟨c, _, c0, _, r, hr, -⟩
      simp at hr)

/-- C10 counterexample: validation runs before the duplicate-contest check,
so a payload repeating contest id `c1` whose first candidate `a` already has
a row for precinct `p1` is rejected with the precinct conflict — an error
naming neither the election nor the jurisdiction — not the duplicate-contest
conflict; and a payload repeating `c1` with an empty candidates list fails
with an `IndexError`, which is not a conflict at all. -/
theorem upload_duplicate_contest_validation_first_counterexample :
    runUploadElectionResults ⟨[⟨.named "r1", "src", "p1", "a", 1⟩], 0⟩ "GE" "Kent"
        ⟨"Data Entry", "p1", [⟨"c1", [⟨"a", 10⟩]⟩, ⟨"c1", [⟨"a", 5⟩]⟩]⟩ =
      (⟨[⟨.named "r1", "src", "p1", "a", 1⟩], 0⟩,
        some (.conflict "Results for this precinct are already uploaded")) ∧
    (ApiError.conflict "Results for this precinct are already uploaded" ≠
      .conflict "Contests should be unique for (GE - Kent) results") ∧
    runUploadElectionResults ⟨[], 0⟩ "GE" "Kent"
        ⟨"Data Entry", "p1", [⟨"c1", []⟩, ⟨"c1", []⟩]⟩ =
      (⟨[], 0⟩, some .indexError) ∧
    ApiError.isConflictKind .indexError = false := by
  refine ⟨by decide, by decide, by decide, by decide⟩

/-! ### Python string primitives

`String.toLower`/`trim`/`replace` from core do not reduce well inside the
kernel, so Python's `str.lower`, `str.strip` and `str.replace` are embedded
structurally over `String.data`. -/

/-- Python `str.lower` for one ASCII character. -/
def pyCharLower (c : Char) : Char :=
  if 65 ≤ c.toNat ∧ c.toNat ≤ 90 then Char.ofNat (c.toNat + 32) else c

/-- Python `str.lower` (ASCII range, which covers the embedded inputs). -/
def pyLower (s : String) : String := ⟨s.data.map pyCharLower⟩

/-- Fuel-driven body of `pyReplace`: scan left to right, replacing each
non-overlapping occurrence of `pat`.  The fuel starts at the string length
and each step consumes at least one character for non-empty `pat`. -/
def pyReplaceGo (pat rep : List Char) : Nat → List Char → List Char
  | _, [] => []
  | 0, s => s
  | fuel + 1, c :: cs =>
      if pat.isPrefixOf (c :: cs) then
        rep ++ pyReplaceGo pat rep fuel ((c :: cs).drop pat.length)
      else
        c :: pyReplaceGo pat rep fuel cs

/-- Python `s.replace(pat, rep)`: replace every non-overlapping occurrence,
scanning left to right. -/
def pyReplace (s pat rep : String) : String :=
  ⟨pyReplaceGo pat.data rep.data s.data.length s.data⟩

/-- Python `str.strip()`: remove leading and trailing whitespace. -/
def pyStrip (s : String) : String :=
  ⟨((s.data.dropWhile Char.isWhitespace).reverse.dropWhile Char.isWhitespace).reverse⟩

/-! ### Jurisdiction bulk loader (claim C5)

`server/api/jurisdictions.py`, `bulk_update_jurisdictions` (lines 42–85). -/

/-- A row of the `Jurisdiction` table (`server/models.py`): unique per
`(state_id, name)`. -/
structure JurisdictionRow where
  id : RowId
  name : String
  state_id : RowId
  deriving DecidableEq, Repr

/-- A row of the `ElectionJurisdiction` join table (`server/models.py`):
primary key `(election_id, jurisdiction_id)`. -/
structure EJRow where
  election_id : RowId
  jurisdiction_id : RowId
  deriving DecidableEq, Repr

/-- A row of the `User` table; `@validates("email")` stores the email
lowercased. -/
structure UserRow where
  id : RowId
  email : String
  deriving DecidableEq, Repr

/-- A row of the `JurisdictionAdministration` table: primary key
`(user_id, jurisdiction_id)`. -/
structure AdminRow where
  user_id : RowId
  jurisdiction_id : RowId
  deriving DecidableEq, Repr

/-- The tables touched by `bulk_update_jurisdictions`, with the fresh-id
counter for `str(uuid.uuid4())`. -/
structure AdminDB where
  users : List UserRow
  jurisdictions : List JurisdictionRow
  election_jurisdictions : List EJRow
  admins : List AdminRow
  next_id : Nat
  deriving DecidableEq, Repr

/-- SQLAlchemy `.one_or_none()`: none, the single row, or
`MultipleResultsFound`. -/
def oneOrNone {α : Type} : List α → Except ApiError (Option α)
  | [] => .ok none
  | [a] => .ok (some a)
  | _ :: _ :: _ => .error .multipleResultsFound

/-- Whether a jurisdiction is linked to the election through
`ElectionJurisdiction`. -/
def linkedInB (ej : List EJRow) (eid jid : RowId) : Bool :=
  ej.any fun r => r.election_id == eid && r.jurisdiction_id == jid

/-- `linkedInB` over a database value. -/
def AdminDB.linkedB (db : AdminDB) (eid jid : RowId) : Bool :=
  linkedInB db.election_jurisdictions eid jid

/-- Find-or-create step for the user of one pair: the user found by
lowercased email, or a freshly created one (whose email `@validates`
lowercases on assignment), together with the resulting database. -/
def chooseUser (db : AdminDB) (email : String) :
    Option UserRow → UserRow × AdminDB
  | some u => (u, db)
  | none =>
      (⟨.gen db.next_id, pyLower email⟩,
        ⟨db.users ++ [⟨.gen db.next_id, pyLower email⟩], db.jurisdictions,
          db.election_jurisdictions, db.admins, db.next_id + 1⟩)

/-- The per-pair loop of `bulk_update_jurisdictions`: find-or-create the user
by lowercased email, find the jurisdiction by name among the jurisdictions
linked to the election (`BadRequest "Invalid Jurisdiction"` if absent —
jurisdictions are never created here), then add the admin link.  The primary
key `(user_id, jurisdiction_id)` is enforced at insert. -/
def bulkUpdateJurisdictionsLoop (eid : RowId) :
    List (String × String) → AdminDB → List AdminRow →
      Except ApiError (AdminDB × List AdminRow)
  | [], db, acc => .ok (db, acc)
  | (name, email) :: rest, db, acc =>
      match oneOrNone (db.users.filter fun u => u.email == pyLower email) with
      | .error e => .error e
      | .ok userOpt =>
          match oneOrNone ((chooseUser db email userOpt).2.jurisdictions.filter fun j =>
              j.name == name && (chooseUser db email userOpt).2.linkedB eid j.id) with
          | .error e => .error e
          | .ok none => .error (.badRequest "Invalid Jurisdiction")
          | .ok (some j) =>
              if (chooseUser db email userOpt).2.admins.any fun a =>
                  a.user_id == (chooseUser db email userOpt).1.id &&
                    a.jurisdiction_id == j.id then
                .error (.uniqueViolation "jurisdiction_administration_pkey")
              else
                bulkUpdateJurisdictionsLoop eid rest
                  ⟨(chooseUser db email userOpt).2.users,
                    (chooseUser db email userOpt).2.jurisdictions,
                    (chooseUser db email userOpt).2.election_jurisdictions,
                    (chooseUser db email userOpt).2.admins ++
                      [⟨(chooseUser db email userOpt).1.id, j.id⟩],
                    (chooseUser db email userOpt).2.next_id⟩
                  (acc ++ [⟨(chooseUser db email userOpt).1.id, j.id⟩])

/-- `bulk_update_jurisdictions` (`server/api/jurisdictions.py`, lines 42–85):
first delete every admin link whose jurisdiction is linked to this election,
then process the `(name, email)` pairs, returning the newly created admin
links. -/
def bulk_update_jurisdictions (db : AdminDB) (eid : RowId)
    (pairs : List (String × String)) : Except ApiError (AdminDB × List AdminRow) :=
  bulkUpdateJurisdictionsLoop eid pairs
    ⟨db.users, db.jurisdictions, db.election_jurisdictions,
      db.admins.filter fun a => !db.linkedB eid a.jurisdiction_id, db.next_id⟩
    []

/-- The nested transaction of `bulk_update_jurisdictions`: on any raised
error the whole batch rolls back and the database is unchanged. -/
def runBulkUpdateJurisdictions (db : AdminDB) (eid : RowId)
    (pairs : List (String × String)) : AdminDB × Except ApiError (List AdminRow) :=
  match bulk_update_jurisdictions db eid pairs with
  | .ok (db', admins) => (db', .ok admins)
  | .error e => (db, .error e)

/-- The correspondence between an input `(name, email)` pair and a created
admin link: the link points at the unique linked jurisdiction carrying the
name, and at a user (in the final users table) whose email is the lowercased
input email. -/
def PairMatches (jurisdictions : List JurisdictionRow) (ej : List EJRow)
    (users : List UserRow) (eid : RowId) (pr : String × String) (a : AdminRow) : Prop :=
  (∃ j ∈ jurisdictions, j.name = pr.1 ∧ linkedInB ej eid j.id = true ∧
    a.jurisdiction_id = j.id) ∧
  ∃ u ∈ users, u.id = a.user_id ∧ u.email = pyLower pr.2

theorem oneOrNone_ok_some {α : Type} (l : List α) (a : α)
    (h : oneOrNone l = .ok (some a)) : a ∈ l := by
  match l with
  | [] => simp [oneOrNone] at h
  | [x] =>
      simp only [oneOrNone, Except.ok.injEq, Option.some.injEq] at h
      simp [h]
  | x :: y :: rest => simp [oneOrNone] at h

theorem bulkUpdateJurisdictionsLoop_ok (eid : RowId) (pairs : List (String × String))
    (db : AdminDB) (acc : List AdminRow) (db' : AdminDB) (out : List AdminRow)
    (hok : bulkUpdateJurisdictionsLoop eid pairs db acc = .ok (db', out)) :
    ∃ added, out = acc ++ added ∧ db'.admins = db.admins ++ added ∧
      db'.jurisdictions = db.jurisdictions ∧
      db'.election_jurisdictions = db.election_jurisdictions ∧
      (∃ us, db'.users = db.users ++ us) ∧
      List.Forall₂
        (PairMatches db.jurisdictions db.election_jurisdictions db'.users eid)
        pairs added := by
  induction pairs generalizing db acc with
  | nil =>
      rw [bulkUpdateJurisdictionsLoop] at hok
      cases hok
      exact ⟨[], by simp, by simp, rfl, rfl, ⟨[], by simp⟩, by simp⟩
  | cons pr rest ih =>
      obtain ⟨name, email⟩ := pr
      rw [bulkUpdateJurisdictionsLoop] at hok
      split at hok
      · exact absurd hok (by simp)
      rename_i userOpt huser
      split at hok
      · exact absurd hok (by simp)
      · exact absurd hok (by simp)
      rename_i j hj
      split at hok
      · exact absurd hok (by simp)
      rename_i hdup
      set step : UserRow × AdminDB := chooseUser db email userOpt with hstep
      have hstepJur : step.2.jurisdictions = db.jurisdictions := by
        cases userOpt <;> simp [hstep, chooseUser]
      have hstepEJ : step.2.election_jurisdictions = db.election_jurisdictions := by
        cases userOpt <;> simp [hstep, chooseUser]
      have hstepAdmins : step.2.admins = db.admins := by
        cases userOpt <;> simp [hstep, chooseUser]
      have hstepUsers : ∃ us, step.2.users = db.users ++ us := by
        cases userOpt with
        | some u => exact ⟨[], by simp [hstep, chooseUser]⟩
        | none =>
            exact ⟨[⟨.gen db.next_id, pyLower email⟩], by simp [hstep, chooseUser]⟩
      have hstepUserMem : step.1 ∈ step.2.users ∧ step.1.email = pyLower email := by
        cases hu : userOpt with
        | some u =>
            have hmem := oneOrNone_ok_some _ _ (hu ▸ huser)
            have hcond := List.of_mem_filter hmem
            rw [beq_iff_eq] at hcond
            exact ⟨by simp [hstep, hu, chooseUser, List.mem_of_mem_filter hmem],
              by simp [hstep, hu, chooseUser, hcond]⟩
        | none => exact ⟨by simp [hstep, hu, chooseUser], by simp [hstep, hu, chooseUser]⟩
      obtain ⟨added, hout, hadmins, hjur, hej, ⟨us, hus⟩, hcorr⟩ := ih _ _ hok
      refine ⟨⟨step.1.id, j.id⟩ :: added, ?_, ?_, ?_, ?_, ?_, ?_⟩
      · rw [hout]; simp
      · simp only at hadmins
        rw [hadmins, hstepAdmins]
        simp
      · simp only at hjur
        rw [hjur, hstepJur]
      · simp only at hej
        rw [hej, hstepEJ]
      · obtain ⟨us0, hus0⟩ := hstepUsers
        simp only at hus
        exact ⟨us0 ++ us, by rw [hus, hus0]; simp⟩
      · constructor
        · constructor
          · have hmem := oneOrNone_ok_some _ _ hj
            have hcond := List.of_mem_filter hmem
            rw [Bool.and_eq_true, beq_iff_eq] at hcond
            refine ⟨j, ?_, hcond.1, ?_, rfl⟩
            · have := List.mem_of_mem_filter hmem
              rwa [hstepJur] at this
            · have := hcond.2
              unfold AdminDB.linkedB at this
              rwa [hstepEJ] at this
          · refine ⟨step.1, ?_, rfl, hstepUserMem.2⟩
            simp only at hus
            rw [hus]
            exact List.mem_append_left _ hstepUserMem.1
        · simp only at hcorr
          rw [hstepJur, hstepEJ] at hcorr
          exact hcorr

/-- C5: a successful run of `bulk_update_jurisdictions` first deletes every
admin link for jurisdictions linked to the election, leaving exactly the
links derived from the input pairs appended after the untouched links of
unlinked jurisdictions — so no admin from a prior run remains linked — and
returns exactly the newly created links, each matching its input pair; any
failure rolls the nested transaction back, leaving the database unchanged
with no partial admin assignment observable. -/
theorem bulk_update_jurisdictions_full_replace (db : AdminDB) (eid : RowId)
    (pairs : List (String × String)) :
    (∀ db' newAdmins,
      bulk_update_jurisdictions db eid pairs = .ok (db', newAdmins) →
        runBulkUpdateJurisdictions db eid pairs = (db', .ok newAdmins) ∧
        db'.admins =
          (db.admins.filter fun a => !db.linkedB eid a.jurisdiction_id) ++ newAdmins ∧
        (∀ a ∈ db'.admins, db.linkedB eid a.jurisdiction_id = true → a ∈ newAdmins) ∧
        List.Forall₂
          (PairMatches db.jurisdictions db.election_jurisdictions db'.users eid)
          pairs newAdmins) ∧
    (∀ e, bulk_update_jurisdictions db eid pairs = .error e →
      runBulkUpdateJurisdictions db eid pairs = (db, .error e)) := by
  constructor
  · intro db' newAdmins hok
    obtain ⟨added, hout, hadmins, hjur, hej, hus, hcorr⟩ :=
      bulkUpdateJurisdictionsLoop_ok eid pairs _ [] db' newAdmins hok
    rw [List.nil_append] at hout
    subst hout
    have hadmins' : db'.admins =
        (db.admins.filter fun a => !db.linkedB eid a.jurisdiction_id) ++ newAdmins := by
      rw [hadmins]
    refine ⟨?_, hadmins', ?_, ?_⟩
    · unfold runBulkUpdateJurisdictions
      rw [hok]
    · intro a ha hlink
      rw [hadmins'] at ha
      rcases List.mem_append.mp ha with hkeep | hnew
      · have := List.of_mem_filter hkeep
        rw [hlink] at this
        simp at this
      · exact hnew
    · exact hcorr
  · intro e herr
    unfold runBulkUpdateJurisdictions
    rw [herr]

/-- C5 witness: a concrete run in which a previously linked admin is
cleared and the single input pair creates a fresh user and link. -/
theorem bulk_update_jurisdictions_full_replace_witness :
    (∀ db' newAdmins,
      bulk_update_jurisdictions
          ⟨[], [⟨.named "j1", "Kent", .named "s1"⟩], [⟨.named "e1", .named "j1"⟩],
            [⟨.named "u9", .named "j1"⟩], 0⟩
          (.named "e1") [("Kent", "A@B.com")] = .ok (db', newAdmins) →
        runBulkUpdateJurisdictions
            ⟨[], [⟨.named "j1", "Kent", .named "s1"⟩], [⟨.named "e1", .named "j1"⟩],
              [⟨.named "u9", .named "j1"⟩], 0⟩
            (.named "e1") [("Kent", "A@B.com")] = (db', .ok newAdmins) ∧
        db'.admins =
          ((⟨[], [⟨.named "j1", "Kent", .named "s1"⟩], [⟨.named "e1", .named "j1"⟩],
              [⟨.named "u9", .named "j1"⟩], 0⟩ : AdminDB).admins.filter fun a =>
            !(⟨[], [⟨.named "j1", "Kent", .named "s1"⟩], [⟨.named "e1", .named "j1"⟩],
                [⟨.named "u9", .named "j1"⟩], 0⟩ : AdminDB).linkedB (.named "e1")
              a.jurisdiction_id) ++ newAdmins ∧
        (∀ a ∈ db'.admins,
          (⟨[], [⟨.named "j1", "Kent", .named "s1"⟩], [⟨.named "e1", .named "j1"⟩],
              [⟨.named "u9", .named "j1"⟩], 0⟩ : AdminDB).linkedB (.named "e1")
            a.jurisdiction_id = true → a ∈ newAdmins) ∧
        List.Forall₂
          (PairMatches [⟨.named "j1", "Kent", .named "s1"⟩] [⟨.named "e1", .named "j1"⟩]
            db'.users (.named "e1"))
          [("Kent", "A@B.com")] newAdmins) ∧
    ((bulk_update_jurisdictions
        ⟨[], [⟨.named "j1", "Kent", .named "s1"⟩], [⟨.named "e1", .named "j1"⟩],
          [⟨.named "u9", .named "j1"⟩], 0⟩
        (.named "e1") [("Kent", "A@B.com")]).isOk = true) :=
  ⟨(bulk_update_jurisdictions_full_replace
      ⟨[], [⟨.named "j1", "Kent", .named "s1"⟩], [⟨.named "e1", .named "j1"⟩],
        [⟨.named "u9", .named "j1"⟩], 0⟩
      (.named "e1") [("Kent", "A@B.com")]).1, by decide⟩

/-- C9: the file-processing wrapper records `processing_started_at` before
the unit of work runs; on success it records `processing_completed_at` with
`processing_error` still unset; on failure it captures the (non-empty) error
message into `processing_error`, still records `processing_completed_at`,
and re-raises the error to the caller. -/
theorem process_file_bookkeeping (now₁ now₂ : Nat) (file : FileRow)
    (work : Except String Unit)
    (herr : file.processing_error = none)
    (hmsg : ∀ m, work = .error m → m ≠ "") :
    (process_file now₁ now₂ file work).1.processing_started_at = some now₁ ∧
    (process_file now₁ now₂ file work).1.processing_completed_at = some now₂ ∧
    (work = .ok () →
      (process_file now₁ now₂ file work).1.processing_error = none ∧
      (process_file now₁ now₂ file work).2 = none) ∧
    (∀ m, work = .error m →
      (process_file now₁ now₂ file work).1.processing_error = some m ∧ m ≠ "" ∧
      (process_file now₁ now₂ file work).2 = some m) := by
  cases work with
  | ok u =>
      cases u
      refine ⟨rfl, rfl, fun _ => ⟨?_, rfl⟩, fun m hm => ?_⟩
      · simp [process_file, herr]
      · cases hm
  | error m =>
      refine ⟨rfl, rfl, fun h => ?_, fun m' hm' => ?_⟩
      · cases h
      · cases hm'
        exact ⟨rfl, hmsg m rfl, rfl⟩

/-- C9 witness: the wrapper applied to a fresh file and a failing unit of
work with message `boom`. -/
theorem process_file_bookkeeping_witness :
    (process_file 1 2 ⟨none, none, none⟩ (.error "boom")).1.processing_started_at = some 1 ∧
    (process_file 1 2 ⟨none, none, none⟩ (.error "boom")).1.processing_completed_at = some 2 ∧
    ((.error "boom" : Except String Unit) = .ok () →
      (process_file 1 2 ⟨none, none, none⟩ (.error "boom")).1.processing_error = none ∧
      (process_file 1 2 ⟨none, none, none⟩ (.error "boom")).2 = none) ∧
    (∀ m, (.error "boom" : Except String Unit) = .error m →
      (process_file 1 2 ⟨none, none, none⟩ (.error "boom")).1.processing_error = some m ∧
      m ≠ "" ∧
      (process_file 1 2 ⟨none, none, none⟩ (.error "boom")).2 = some m) :=
  process_file_bookkeeping 1 2 ⟨none, none, none⟩ (.error "boom") (by decide)
    (by intro m h; injection h with h; subst h; decide)

/-- C7: `slack_worker.py` reads and writes a `posted_to_slack_at` attribute
on `ActivityLogRecord`, but `models.py` declares the record without any
posted-timestamp column, so the record cannot carry the posted marker the
claim (and the worker itself) requires. -/
theorem activityLogRecord_posted_column_missing :
    "posted_to_slack_at" ∈ slackWorkerActivityLogColumns ∧
    "posted_to_slack_at" ∉ activityLogRecordColumns := by
  decide

/-! ### Slack notification worker (claim C6)

`server/activity_log/slack_worker.py`, `send_new_slack_notification`
(lines 124–151).  The record type follows the worker's own usage and the
spec: `models.py` omits the `posted_to_slack_at` column (see C7), so the
field here models the column the worker requires.  Delivery
(`requests.post` plus `slack_message`) is abstracted as a function from the
record to an HTTP status and response body. -/

/-- An activity-log record as the worker uses it. -/
structure ALRecord where
  id : String
  timestamp : Nat
  organization_id : String
  activity_name : String
  posted_to_slack_at : Option Nat
  deriving DecidableEq, Repr

/-- Whether a record is unposted and passes the optional organization
filter. -/
def alSelectable (orgFilter : Option String) (r : ALRecord) : Bool :=
  r.posted_to_slack_at.isNone &&
    match orgFilter with
    | none => true
    | some org => r.organization_id == org

/-- Fold selecting the first record of minimal timestamp. -/
def alPickMin (acc : Option ALRecord) (r : ALRecord) : Option ALRecord :=
  match acc with
  | none => some r
  | some b => if r.timestamp < b.timestamp then some r else acc

/-- The worker's query: unposted records (optionally restricted to one
organization), ordered by `timestamp`, limited to one row — i.e. the first
record of minimal timestamp among the selectable ones. -/
def selectOldestUnposted (orgFilter : Option String) (records : List ALRecord) :
    Option ALRecord :=
  (records.filter (alSelectable orgFilter)).foldl alPickMin none

/-- Mark every record with the given id as posted at time `now`
(`record.posted_to_slack_at = datetime.now(...)`; ids are primary keys, so
in a well-formed table exactly one row is affected). -/
def markPosted (records : List ALRecord) (rid : String) (now : Nat) : List ALRecord :=
  records.map fun r =>
    if r.id == rid then { r with posted_to_slack_at := some now } else r

/-- `send_new_slack_notification`: fail fast on a missing webhook URL;
otherwise select the single oldest unposted record; if none, do nothing;
otherwise deliver it, raise on a non-200 status (leaving the record
unposted), and mark it posted on 200.  Returns the updated table and the id
of the delivered record, if any. -/
def send_new_slack_notification (webhookUrl : Option String)
    (deliver : ALRecord → Nat × String) (now : Nat) (orgFilter : Option String)
    (records : List ALRecord) : Except String (List ALRecord × Option String) :=
  match webhookUrl with
  | none => .error "Missing SLACK_WEBHOOK_URL"
  | some _ =>
      match selectOldestUnposted orgFilter records with
      | none => .ok (records, none)
      | some record =>
          if (deliver record).1 ≠ 200 then
            .error ("Error posting record " ++ record.id ++ ":\n\n" ++ (deliver record).2)
          else
            .ok (markPosted records record.id now, some record.id)

/-- One poll of the worker loop: on a raised error nothing is committed for
the selected record, so the table is unchanged and nothing was delivered. -/
def workerPoll (webhookUrl : Option String) (deliver : ALRecord → Nat × String)
    (now : Nat) (orgFilter : Option String) (records : List ALRecord) :
    List ALRecord × Option String × Option String :=
  match send_new_slack_notification webhookUrl deliver now orgFilter records with
  | .ok (records', delivered) => (records', delivered, none)
  | .error e => (records, none, some e)

theorem foldl_alPickMin_mem (l : List ALRecord) (acc : Option ALRecord) (r : ALRecord)
    (h : l.foldl alPickMin acc = some r) : acc = some r ∨ r ∈ l := by
  induction l generalizing acc with
  | nil => exact Or.inl h
  | cons x xs ih =>
      rcases ih (alPickMin acc x) h with hacc | hmem
      · cases acc with
        | none =>
            simp only [alPickMin, Option.some.injEq] at hacc
            exact Or.inr (by rw [← hacc]; exact List.mem_cons_self x xs)
        | some b =>
            simp only [alPickMin] at hacc
            by_cases hlt : x.timestamp < b.timestamp
            · rw [if_pos hlt, Option.some.injEq] at hacc
              exact Or.inr (by rw [← hacc]; exact List.mem_cons_self x xs)
            · rw [if_neg hlt] at hacc
              exact Or.inl hacc
      · exact Or.inr (List.mem_cons_of_mem x hmem)

theorem foldl_alPickMin_le (l : List ALRecord) (acc : Option ALRecord) (r : ALRecord)
    (h : l.foldl alPickMin acc = some r) :
    (∀ b, acc = some b → r.timestamp ≤ b.timestamp) ∧
    ∀ x ∈ l, r.timestamp ≤ x.timestamp := by
  induction l generalizing acc with
  | nil =>
      refine ⟨fun b hb => ?_, fun x hx => absurd hx (List.not_mem_nil x)⟩
      rw [hb] at h
      cases h
      exact Nat.le_refl _
  | cons x xs ih =>
      obtain ⟨hacc, hall⟩ := ih (alPickMin acc x) h
      have hx : r.timestamp ≤ x.timestamp := by
        cases acc with
        | none => exact hacc x rfl
        | some b =>
            by_cases hlt : x.timestamp < b.timestamp
            · exact hacc x (by simp [alPickMin, if_pos hlt])
            · have hb := hacc b (by simp [alPickMin, if_neg hlt])
              exact Nat.le_trans hb (Nat.le_of_not_lt hlt)
      refine ⟨fun b hb => ?_, fun y hy => ?_⟩
      · subst hb
        by_cases hlt : x.timestamp < b.timestamp
        · exact Nat.le_trans (hacc x (by simp [alPickMin, if_pos hlt]))
            (Nat.le_of_lt hlt)
        · exact hacc b (by simp [alPickMin, if_neg hlt])
      · rcases List.mem_cons.mp hy with hy | hy
        · rw [hy]; exact hx
        · exact hall y hy

theorem foldl_alPickMin_isSome (l : List ALRecord) (acc : Option ALRecord)
    (h : l ≠ [] ∨ acc.isSome) : (l.foldl alPickMin acc).isSome := by
  induction l generalizing acc with
  | nil =>
      rcases h with h | h
      · exact absurd rfl h
      · exact h
  | cons x xs ih =>
      apply ih
      cases acc with
      | none => right; rfl
      | some b =>
          right
          simp only [alPickMin]
          by_cases hlt : x.timestamp < b.timestamp <;> simp [hlt]

/-- If the selectable records are (a permutation of) a list in which `r` has
the strictly smallest timestamp, the worker's query returns exactly `r`. -/
theorem selectOldest_eq_of_strict_min (orgFilter : Option String)
    (records : List ALRecord) (l : List ALRecord) (r : ALRecord)
    (hperm : (records.filter (alSelectable orgFilter)).Perm l)
    (hr : r ∈ l)
    (hmin : ∀ x ∈ l, x ≠ r → r.timestamp < x.timestamp) :
    selectOldestUnposted orgFilter records = some r := by
  unfold selectOldestUnposted
  set f := records.filter (alSelectable orgFilter) with hf
  have hne : f ≠ [] := by
    intro hnil
    rw [hnil] at hperm
    exact absurd (hperm.symm.mem_iff.mp hr) (List.not_mem_nil r)
  have hsome := foldl_alPickMin_isSome f none (Or.inl hne)
  obtain ⟨m, hm⟩ := Option.isSome_iff_exists.mp hsome
  rcases foldl_alPickMin_mem f none m hm with hacc | hmem
  · cases hacc
  · have hle := (foldl_alPickMin_le f none m hm).2
    have hmemL : m ∈ l := hperm.mem_iff.mp hmem
    have hrf : r ∈ f := hperm.symm.mem_iff.mp hr
    by_cases hEq : m = r
    · rw [hm, hEq]
    · have h1 := hmin m hmemL hEq
      have h2 := hle r hrf
      exact absurd (Nat.lt_of_le_of_lt h2 h1) (Nat.lt_irrefl _)

theorem markPosted_cons (x : ALRecord) (xs : List ALRecord) (rid : String) (now : Nat) :
    markPosted (x :: xs) rid now =
      (if (x.id == rid) = true then { x with posted_to_slack_at := some now } else x) ::
        markPosted xs rid now := rfl

/-- Marking one id posted removes exactly the rows with that id from the
selectable set. -/
theorem filter_markPosted (orgFilter : Option String) (records : List ALRecord)
    (rid : String) (now : Nat) :
    (markPosted records rid now).filter (alSelectable orgFilter) =
      (records.filter (alSelectable orgFilter)).filter fun r => !(r.id == rid) := by
  induction records with
  | nil => rfl
  | cons x xs ih =>
      rw [markPosted_cons]
      have hsel : alSelectable orgFilter
          { x with posted_to_slack_at := some now } = false := by
        simp [alSelectable]
      by_cases hB : (x.id == rid) = true <;>
        by_cases hx : alSelectable orgFilter x = true <;>
        simp [List.filter_cons, hsel, hB, hx, ih]

theorem workerPoll_delivers (url : String) (deliver : ALRecord → Nat × String)
    (now : Nat) (orgFilter : Option String) (records : List ALRecord) (r : ALRecord)
    (hsel : selectOldestUnposted orgFilter records = some r)
    (h200 : (deliver r).1 = 200) :
    workerPoll (some url) deliver now orgFilter records =
      (markPosted records r.id now, some r.id, none) := by
  unfold workerPoll send_new_slack_notification
  rw [hsel]
  simp [h200]

theorem workerPoll_non200 (url : String) (deliver : ALRecord → Nat × String)
    (now : Nat) (orgFilter : Option String) (records : List ALRecord) (r : ALRecord)
    (hsel : selectOldestUnposted orgFilter records = some r)
    (hfail : (deliver r).1 ≠ 200) :
    workerPoll (some url) deliver now orgFilter records =
      (records, none,
        some ("Error posting record " ++ r.id ++ ":\n\n" ++ (deliver r).2)) := by
  unfold workerPoll send_new_slack_notification
  rw [hsel]
  simp [hfail]

/-- C6: with three unposted records of strictly increasing timestamps (and
distinct ids) as the selectable set, three successful polls deliver them
oldest first, in exactly that order; and whenever delivery of the selected
record returns a non-200 status, the poll raises and leaves the table — in
particular the record's unposted state — unchanged, delivering nothing. -/
theorem slack_worker_oldest_first_and_non200_left_unposted
    (records : List ALRecord) (r1 r2 r3 : ALRecord) (url : String)
    (deliver : ALRecord → Nat × String) (now1 now2 now3 : Nat)
    (hperm : (records.filter (alSelectable none)).Perm [r1, r2, r3])
    (ht12 : r1.timestamp < r2.timestamp) (ht23 : r2.timestamp < r3.timestamp)
    (hid12 : r1.id ≠ r2.id) (hid13 : r1.id ≠ r3.id) (hid23 : r2.id ≠ r3.id)
    (h200 : ∀ r, (deliver r).1 = 200) :
    ((workerPoll (some url) deliver now1 none records).2.1 = some r1.id ∧
     (workerPoll (some url) deliver now2 none
        (workerPoll (some url) deliver now1 none records).1).2.1 = some r2.id ∧
     (workerPoll (some url) deliver now3 none
        (workerPoll (some url) deliver now2 none
          (workerPoll (some url) deliver now1 none records).1).1).2.1 = some r3.id) ∧
    (∀ (records' : List ALRecord) (deliver' : ALRecord → Nat × String)
        (now' : Nat) (r : ALRecord),
      selectOldestUnposted none records' = some r → (deliver' r).1 ≠ 200 →
      workerPoll (some url) deliver' now' none records' =
        (records', none,
          some ("Error posting record " ++ r.id ++ ":\n\n" ++ (deliver' r).2))) := by
  have ht13 : r1.timestamp < r3.timestamp := Nat.lt_trans ht12 ht23
  have hne12 : r2 ≠ r1 := fun h =>
    absurd (h ▸ ht12) (Nat.lt_irrefl _)
  have hne13 : r3 ≠ r1 := fun h =>
    absurd (h ▸ ht13) (Nat.lt_irrefl _)
  have hne23 : r3 ≠ r2 := fun h =>
    absurd (h ▸ ht23) (Nat.lt_irrefl _)
  -- first poll selects and delivers r1
  have hsel1 : selectOldestUnposted none records = some r1 := by
    refine selectOldest_eq_of_strict_min none records [r1, r2, r3] r1 hperm
      (by simp) ?_
    intro x hx hxne
    rcases List.mem_cons.mp hx with h | hx
    · exact absurd h hxne
    rcases List.mem_cons.mp hx with h | hx
    · rw [h]; exact ht12
    rcases List.mem_cons.mp hx with h | hx
    · rw [h]; exact ht13
    · exact absurd hx (List.not_mem_nil x)
  have hpoll1 := workerPoll_delivers url deliver now1 none records r1 hsel1 (h200 r1)
  -- after marking r1, the selectable set is a permutation of [r2, r3]
  have hfilter1 : ((markPosted records r1.id now1).filter (alSelectable none)).Perm
      [r2, r3] := by
    rw [filter_markPosted]
    have := hperm.filter fun r => !(r.id == r1.id)
    rw [show ([r1, r2, r3].filter fun r => !(r.id == r1.id)) = [r2, r3] by
      simp [List.filter_cons, beq_eq_false_iff_ne.mpr (Ne.symm hid12),
        beq_eq_false_iff_ne.mpr (Ne.symm hid13)]] at this
    exact this
  have hsel2 : selectOldestUnposted none (markPosted records r1.id now1) = some r2 := by
    refine selectOldest_eq_of_strict_min none _ [r2, r3] r2 hfilter1 (by simp) ?_
    intro x hx hxne
    rcases List.mem_cons.mp hx with h | hx
    · exact absurd h hxne
    rcases List.mem_cons.mp hx with h | hx
    · rw [h]; exact ht23
    · exact absurd hx (List.not_mem_nil x)
  have hpoll2 := workerPoll_delivers url deliver now2 none
    (markPosted records r1.id now1) r2 hsel2 (h200 r2)
  have hfilter2 : ((markPosted (markPosted records r1.id now1) r2.id now2).filter
      (alSelectable none)).Perm [r3] := by
    rw [filter_markPosted]
    have := hfilter1.filter fun r => !(r.id == r2.id)
    rw [show ([r2, r3].filter fun r => !(r.id == r2.id)) = [r3] by
      simp [List.filter_cons, beq_eq_false_iff_ne.mpr (Ne.symm hid23)]] at this
    exact this
  have hsel3 : selectOldestUnposted none
      (markPosted (markPosted records r1.id now1) r2.id now2) = some r3 := by
    refine selectOldest_eq_of_strict_min none _ [r3] r3 hfilter2 (by simp) ?_
    intro x hx hxne
    rcases List.mem_cons.mp hx with h | hx
    · exact absurd h hxne
    · exact absurd hx (List.not_mem_nil x)
  have hpoll3 := workerPoll_delivers url deliver now3 none
    (markPosted (markPosted records r1.id now1) r2.id now2) r3 hsel3 (h200 r3)
  refine ⟨⟨?_, ?_, ?_⟩, ?_⟩
  · rw [hpoll1]
  · rw [hpoll1, hpoll2]
  · rw [hpoll1, hpoll2, hpoll3]
  · intro records' deliver' now' r hsel hfail
    exact workerPoll_non200 url deliver' now' none records' r hsel hfail

/-- C6 witness: three concrete unposted records stored out of order, an
always-200 delivery, and the non-200 clause at arbitrary inputs. -/
theorem slack_worker_oldest_first_witness :
    ((workerPoll (some "https://hooks.example") (fun _ => (200, "ok")) 10 none
        [⟨"b", 2, "o", "DeleteElection", none⟩, ⟨"c", 3, "o", "RecordResults", none⟩,
          ⟨"a", 1, "o", "CreateElection", none⟩]).2.1 =
        some (ALRecord.id ⟨"a", 1, "o", "CreateElection", none⟩) ∧
     (workerPoll (some "https://hooks.example") (fun _ => (200, "ok")) 11 none
        (workerPoll (some "https://hooks.example") (fun _ => (200, "ok")) 10 none
          [⟨"b", 2, "o", "DeleteElection", none⟩, ⟨"c", 3, "o", "RecordResults", none⟩,
            ⟨"a", 1, "o", "CreateElection", none⟩]).1).2.1 =
        some (ALRecord.id ⟨"b", 2, "o", "DeleteElection", none⟩) ∧
     (workerPoll (some "https://hooks.example") (fun _ => (200, "ok")) 12 none
        (workerPoll (some "https://hooks.example") (fun _ => (200, "ok")) 11 none
          (workerPoll (some "https://hooks.example") (fun _ => (200, "ok")) 10 none
            [⟨"b", 2, "o", "DeleteElection", none⟩, ⟨"c", 3, "o", "RecordResults", none⟩,
              ⟨"a", 1, "o", "CreateElection", none⟩]).1).1).2.1 =
        some (ALRecord.id ⟨"c", 3, "o", "RecordResults", none⟩)) ∧
    (∀ (records' : List ALRecord) (deliver' : ALRecord → Nat × String)
        (now' : Nat) (r : ALRecord),
      selectOldestUnposted none records' = some r → (deliver' r).1 ≠ 200 →
      workerPoll (some "https://hooks.example") deliver' now' none records' =
        (records', none,
          some ("Error posting record " ++ r.id ++ ":\n\n" ++ (deliver' r).2))) :=
  slack_worker_oldest_first_and_non200_left_unposted
    [⟨"b", 2, "o", "DeleteElection", none⟩, ⟨"c", 3, "o", "RecordResults", none⟩,
      ⟨"a", 1, "o", "CreateElection", none⟩]
    ⟨"a", 1, "o", "CreateElection", none⟩ ⟨"b", 2, "o", "DeleteElection", none⟩
    ⟨"c", 3, "o", "RecordResults", none⟩ "https://hooks.example"
    (fun _ => (200, "ok")) 10 11 12
    (by decide) (by decide) (by decide) (by decide) (by decide) (by decide)
    (fun _ => rfl)

/-! ### Results aggregation query (claim C8)

`server/api/elections.py`, `get_election_data` (lines 289–370): the query
orders the joined tally rows by `(Contest.election_id, Jurisdiction.id,
Precinct.id, Contest.id, Candidate.name)` and the Python loop folds them into
nested groups.  The query is read-only: it is embedded as a pure function of
the row list.  `String` comparison is embedded structurally (code-point
lexicographic, as the database collates ASCII ids). -/

/-- Code-point lexicographic order on character lists. -/
def charListLt : List Char → List Char → Bool
  | [], [] => false
  | [], _ :: _ => true
  | _ :: _, [] => false
  | a :: as, b :: bs =>
      if a.toNat < b.toNat then true
      else if b.toNat < a.toNat then false
      else charListLt as bs

/-- Strict lexicographic string comparison. -/
def strLtB (a b : String) : Bool := charListLt a.data b.data

/-- One row of the aggregation query's result set, in the column order of the
`db_session.query(...)` call (indices 0–11 in the Python loop). -/
structure DataRow where
  election_id : String
  jurisdiction_id : String
  jurisdiction_name : String
  precinct_id : String
  precinct_name : String
  contest_id : String
  contest_name : String
  candidate_id : String
  candidate_name : String
  created_at : Nat
  source : String
  num_votes : Nat
  deriving DecidableEq, Repr

/-- One `candidates` entry of the aggregated output. -/
structure CandidateEntry where
  id : String
  name : String
  numVotes : Nat
  deriving DecidableEq, Repr

/-- One `contests` entry of the aggregated output. -/
structure ContestEntry where
  id : String
  name : String
  totalBallotsCast : Nat
  candidates : List CandidateEntry
  deriving DecidableEq, Repr

/-- One element of the `election_data` output list. -/
structure ResultGroup where
  id : String
  jurisdictionName : String
  fileName : String
  createdAt : Nat
  source : String
  contests : List ContestEntry
  deriving DecidableEq, Repr

/-- The `order_by` key comparison:
`(election_id, jurisdiction_id, precinct_id, contest_id, candidate_name)`,
lexicographically. -/
def rowLe (a b : DataRow) : Bool :=
  if a.election_id ≠ b.election_id then strLtB a.election_id b.election_id
  else if a.jurisdiction_id ≠ b.jurisdiction_id then
    strLtB a.jurisdiction_id b.jurisdiction_id
  else if a.precinct_id ≠ b.precinct_id then strLtB a.precinct_id b.precinct_id
  else if a.contest_id ≠ b.contest_id then strLtB a.contest_id b.contest_id
  else !(strLtB b.candidate_name a.candidate_name)

/-- `rowLe` as a decidable relation for sorting. -/
def RowLe (a b : DataRow) : Prop := rowLe a b = true

instance : DecidableRel RowLe := fun a b =>
  inferInstanceAs (Decidable (rowLe a b = true))

/-- A candidate entry built from one row (`id`, `name`, `numVotes`). -/
def mkCandidateEntry (r : DataRow) : CandidateEntry :=
  ⟨r.candidate_id, r.candidate_name, r.num_votes⟩

/-- The fresh contest entry created from one row. -/
def newContestEntry (r : DataRow) : ContestEntry :=
  ⟨r.contest_id, r.contest_name, r.num_votes, [mkCandidateEntry r]⟩

/-- The Python group key
`itr_result[1] + '/' + itr_result[3] + '/' + str(iter)`. -/
def groupKeyStr (r : DataRow) (iter : Nat) : String :=
  r.jurisdiction_id ++ "/" ++ r.precinct_id ++ "/" ++ toString iter

/-- The fresh result group created from one row at loop counter `iter`. -/
def newResultGroup (r : DataRow) (iter : Nat) : ResultGroup :=
  ⟨groupKeyStr r iter, r.jurisdiction_name, r.precinct_name, r.created_at,
    r.source, [newContestEntry r]⟩

/-- The inner `else` branch of the loop: append the row to the group's last
contest entry if the contest id matches (accumulating `totalBallotsCast`),
otherwise start a new contest entry. -/
def appendRowToContests (cs : List ContestEntry) (r : DataRow) : List ContestEntry :=
  match cs.getLast? with
  | none => [newContestEntry r]
  | some c =>
      if c.id ≠ r.contest_id then cs ++ [newContestEntry r]
      else
        cs.dropLast ++
          [⟨c.id, c.name, c.totalBallotsCast + r.num_votes,
            c.candidates ++ [mkCandidateEntry r]⟩]

/-- The Python `for itr_result in election_results` loop, carrying the group
under construction, the `iter` counter, and the emitted groups. -/
def groupLoopGo : List DataRow → ResultGroup → Nat → List ResultGroup → List ResultGroup
  | [], cur, _, acc => acc ++ [cur]
  | r :: rest, cur, iter, acc =>
      if cur.id ≠ groupKeyStr r iter then
        groupLoopGo rest (newResultGroup r (iter + 1)) (iter + 1) (acc ++ [cur])
      else
        groupLoopGo rest { cur with contests := appendRowToContests cur.contests r }
          iter acc

/-- The whole loop including the trailing
`election_data.append(temp_result_obj)` (the empty result set returns "No
entry found" and produces no groups). -/
def groupRows : List DataRow → List ResultGroup
  | [] => []
  | r :: rest => groupLoopGo rest (newResultGroup r 0) 0 []

/-- `get_election_data`: sort the rows by the `order_by` key, then run the
grouping loop.  Read-only — a pure function of the row set. -/
def get_election_data (rows : List DataRow) : List ResultGroup :=
  groupRows (List.insertionSort RowLe rows)

/-- The `(jurisdiction_id, precinct_id)` key the spec says drives grouping. -/
def gpKey (r : DataRow) : String × String := (r.jurisdiction_id, r.precinct_id)

/-- A contest entry as the spec describes it: the chunk head plus the
following rows of the same contest, `totalBallotsCast` the sum of their vote
counts. -/
def contestChunkEntry (r : DataRow) (same : List DataRow) : ContestEntry :=
  ⟨r.contest_id, r.contest_name,
    r.num_votes + (same.map fun x => x.num_votes).sum,
    mkCandidateEntry r :: same.map mkCandidateEntry⟩

/-- Reference aggregation, contest level: one entry per maximal run of
consecutive rows sharing a contest id. -/
def specContests : List DataRow → List ContestEntry
  | [] => []
  | r :: rest =>
      contestChunkEntry r (rest.takeWhile fun x => x.contest_id == r.contest_id) ::
        specContests (rest.dropWhile fun x => x.contest_id == r.contest_id)
termination_by l => l.length
decreasing_by
  exact Nat.lt_succ_of_le (List.Sublist.length_le (List.dropWhile_sublist _))

/-- The group built from a run head `r` and the following rows `same` of the
same `(jurisdiction, precinct)` key. -/
def specGroup (iter : Nat) (r : DataRow) (same : List DataRow) : ResultGroup :=
  ⟨groupKeyStr r iter, r.jurisdiction_name, r.precinct_name, r.created_at,
    r.source, specContests (r :: same)⟩

/-- Reference aggregation, group level: one group per maximal run of
consecutive rows sharing the `(jurisdiction, precinct)` key. -/
def specGroups : Nat → List DataRow → List ResultGroup
  | _, [] => []
  | iter, r :: rest =>
      specGroup iter r (rest.takeWhile fun x => gpKey x == gpKey r) ::
        specGroups (iter + 1) (rest.dropWhile fun x => gpKey x == gpKey r)
termination_by _ l => l.length
decreasing_by
  exact Nat.lt_succ_of_le (List.Sublist.length_le (List.dropWhile_sublist _))

/-- A row whose jurisdiction and precinct ids contain no `/` — the separator
the Python loop's string group key uses. -/
def SlashFreeRow (r : DataRow) : Prop :=
  ('/' : Char) ∉ r.jurisdiction_id.data ∧ ('/' : Char) ∉ r.precinct_id.data

instance (r : DataRow) : Decidable (SlashFreeRow r) := by
  unfold SlashFreeRow
  infer_instance

theorem append_slash_inj : ∀ l₁ l₂ m₁ m₂ : List Char, ('/' : Char) ∉ l₁ →
    ('/' : Char) ∉ l₂ → l₁ ++ '/' :: m₁ = l₂ ++ '/' :: m₂ → l₁ = l₂ ∧ m₁ = m₂ := by
  intro l₁
  induction l₁ with
  | nil =>
      intro l₂ m₁ m₂ h1 h2 h
      cases l₂ with
      | nil => simpa using h
      | cons b bs =>
          rw [List.nil_append, List.cons_append] at h
          injection h with hb ht
          exfalso
          apply h2
          rw [← hb]
          exact List.mem_cons_self _ _
  | cons a as ih =>
      intro l₂ m₁ m₂ h1 h2 h
      cases l₂ with
      | nil =>
          rw [List.nil_append, List.cons_append] at h
          injection h with hb ht
          exfalso
          apply h1
          rw [hb]
          exact List.mem_cons_self _ _
      | cons b bs =>
          rw [List.cons_append, List.cons_append] at h
          injection h with hb ht
          obtain ⟨he, hm⟩ := ih bs m₁ m₂ (fun hx => h1 (List.mem_cons_of_mem a hx))
            (fun hx => h2 (List.mem_cons_of_mem b hx)) ht
          exact ⟨by rw [hb, he], hm⟩

theorem groupKeyStr_data (r : DataRow) (iter : Nat) :
    (groupKeyStr r iter).data =
      r.jurisdiction_id.data ++ '/' ::
        (r.precinct_id.data ++ '/' :: (toString iter).data) := by
  unfold groupKeyStr
  rw [String.data_append, String.data_append, String.data_append, String.data_append]
  simp [List.append_assoc]

theorem groupKeyStr_inj (a b : DataRow) (iter : Nat)
    (ha : SlashFreeRow a) (hb : SlashFreeRow b)
    (h : groupKeyStr a iter = groupKeyStr b iter) : gpKey a = gpKey b := by
  have hdata := congrArg String.data h
  rw [groupKeyStr_data, groupKeyStr_data] at hdata
  obtain ⟨hj, hrest⟩ := append_slash_inj _ _ _ _ ha.1 hb.1 hdata
  obtain ⟨hp, -⟩ := append_slash_inj _ _ _ _ ha.2 hb.2 hrest
  unfold gpKey
  rw [String.ext hj, String.ext hp]

theorem groupKeyStr_congr (a b : DataRow) (iter : Nat) (h : gpKey a = gpKey b) :
    groupKeyStr a iter = groupKeyStr b iter := by
  have hj : a.jurisdiction_id = b.jurisdiction_id := congrArg Prod.fst h
  have hp : a.precinct_id = b.precinct_id := congrArg Prod.snd h
  unfold groupKeyStr
  rw [hj, hp]

theorem specContests_cons (r : DataRow) (rest : List DataRow) :
    specContests (r :: rest) =
      contestChunkEntry r (rest.takeWhile fun x => x.contest_id == r.contest_id) ::
        specContests (rest.dropWhile fun x => x.contest_id == r.contest_id) := by
  rw [specContests]

theorem specGroups_cons (iter : Nat) (r : DataRow) (rest : List DataRow) :
    specGroups iter (r :: rest) =
      specGroup iter r (rest.takeWhile fun x => gpKey x == gpKey r) ::
        specGroups (iter + 1) (rest.dropWhile fun x => gpKey x == gpKey r) := by
  rw [specGroups]

theorem specContests_nil : specContests [] = [] := by
  rw [specContests]

theorem specGroups_nil (iter : Nat) : specGroups iter [] = [] := by
  rw [specGroups]

theorem specContests_ne_nil (l : List DataRow) (h : l ≠ []) : specContests l ≠ [] := by
  cases l with
  | nil => exact absurd rfl h
  | cons r rest => rw [specContests_cons]; exact List.cons_ne_nil _ _

theorem appendRowToContests_cons (c : ContestEntry) (cs : List ContestEntry)
    (r : DataRow) (h : cs ≠ []) :
    appendRowToContests (c :: cs) r = c :: appendRowToContests cs r := by
  unfold appendRowToContests
  obtain ⟨x, xs, hxs⟩ := List.exists_cons_of_ne_nil h
  subst hxs
  rw [List.getLast?_cons_cons]
  cases hl : (x :: xs).getLast? with
  | none => simp at hl
  | some d =>
      show (if d.id ≠ r.contest_id then (c :: x :: xs) ++ [newContestEntry r]
          else (c :: x :: xs).dropLast ++
            [⟨d.id, d.name, d.totalBallotsCast + r.num_votes,
              d.candidates ++ [mkCandidateEntry r]⟩]) =
        c :: (if d.id ≠ r.contest_id then (x :: xs) ++ [newContestEntry r]
          else (x :: xs).dropLast ++
            [⟨d.id, d.name, d.totalBallotsCast + r.num_votes,
              d.candidates ++ [mkCandidateEntry r]⟩])
      by_cases hd : d.id ≠ r.contest_id
      · rw [if_pos hd, if_pos hd, List.cons_append]
      · rw [if_neg hd, if_neg hd,
          List.dropLast_cons_of_ne_nil (List.cons_ne_nil x xs), List.cons_append]

theorem takeWhile_append_of_all {α : Type} (p : α → Bool) (xs ys : List α)
    (h : ∀ x ∈ xs, p x = true) :
    (xs ++ ys).takeWhile p = xs ++ ys.takeWhile p := by
  induction xs with
  | nil => simp
  | cons a as ih =>
      rw [List.cons_append, List.takeWhile_cons,
        h a (List.mem_cons_self a as)]
      rw [ih fun x hx => h x (List.mem_cons_of_mem a hx)]
      rfl

theorem dropWhile_append_of_all {α : Type} (p : α → Bool) (xs ys : List α)
    (h : ∀ x ∈ xs, p x = true) :
    (xs ++ ys).dropWhile p = ys.dropWhile p := by
  induction xs with
  | nil => simp
  | cons a as ih =>
      rw [List.cons_append, List.dropWhile_cons, h a (List.mem_cons_self a as)]
      exact ih fun x hx => h x (List.mem_cons_of_mem a hx)

theorem takeWhile_append_of_break {α : Type} (p : α → Bool) (xs ys : List α)
    (h : xs.dropWhile p ≠ []) :
    (xs ++ ys).takeWhile p = xs.takeWhile p := by
  induction xs with
  | nil => exact absurd rfl h
  | cons a as ih =>
      rw [List.cons_append, List.takeWhile_cons, List.takeWhile_cons]
      cases hpa : p a with
      | false => rfl
      | true =>
          rw [ih ?_]
          rw [List.dropWhile_cons, hpa] at h
          exact h

theorem dropWhile_append_of_break {α : Type} (p : α → Bool) (xs ys : List α)
    (h : xs.dropWhile p ≠ []) :
    (xs ++ ys).dropWhile p = xs.dropWhile p ++ ys := by
  induction xs with
  | nil => exact absurd rfl h
  | cons a as ih =>
      rw [List.cons_append, List.dropWhile_cons, List.dropWhile_cons]
      cases hpa : p a with
      | false => rfl
      | true =>
          rw [List.dropWhile_cons, hpa] at h
          exact ih h

theorem specContests_append_aux (n : Nat) :
    ∀ l : List DataRow, l.length ≤ n → l ≠ [] → ∀ r : DataRow,
      specContests (l ++ [r]) = appendRowToContests (specContests l) r := by
  induction n with
  | zero =>
      intro l hlen hne r
      cases l with
      | nil => exact absurd rfl hne
      | cons x xs => simp at hlen
  | succ n ih =>
      intro l hlen hne r
      cases l with
      | nil => exact absurd rfl hne
      | cons x xs =>
          rw [List.cons_append, specContests_cons, specContests_cons]
          by_cases hdw : (xs.dropWhile fun y => y.contest_id == x.contest_id) = []
          · have hall : ∀ y ∈ xs, (y.contest_id == x.contest_id) = true :=
              List.dropWhile_eq_nil_iff.mp hdw
            have htw : (xs.takeWhile fun y => y.contest_id == x.contest_id) = xs := by
              have h := List.takeWhile_append_dropWhile
                (p := fun y => y.contest_id == x.contest_id) (l := xs)
              rw [hdw, List.append_nil] at h
              exact h
            rw [takeWhile_append_of_all _ _ _ hall, dropWhile_append_of_all _ _ _ hall,
              hdw, specContests_nil, htw]
            cases hpr : (r.contest_id == x.contest_id) with
            | true =>
                have hEq : r.contest_id = x.contest_id := beq_iff_eq.mp hpr
                simp [List.takeWhile_cons, List.dropWhile_cons, hpr, specContests_nil,
                  appendRowToContests, contestChunkEntry, hEq, Nat.add_assoc]
            | false =>
                have hne' : x.contest_id ≠ r.contest_id := fun hEq =>
                  (beq_eq_false_iff_ne.mp hpr) hEq.symm
                simp [List.takeWhile_cons, List.dropWhile_cons, hpr, specContests_cons,
                  specContests_nil, appendRowToContests, contestChunkEntry,
                  newContestEntry, hne']
          · rw [takeWhile_append_of_break _ _ _ hdw, dropWhile_append_of_break _ _ _ hdw]
            have hlen' : (xs.dropWhile fun y => y.contest_id == x.contest_id).length ≤ n := by
              have h1 := List.Sublist.length_le (List.dropWhile_sublist
                (fun y => y.contest_id == x.contest_id) (l := xs))
              have h2 : xs.length ≤ n := Nat.le_of_succ_le_succ hlen
              exact Nat.le_trans h1 h2
            rw [ih _ hlen' hdw r]
            rw [appendRowToContests_cons _ _ _ (specContests_ne_nil _ hdw)]

theorem specContests_append (l : List DataRow) (r : DataRow) (h : l ≠ []) :
    specContests (l ++ [r]) = appendRowToContests (specContests l) r :=
  specContests_append_aux l.length l (Nat.le_refl _) h r

theorem newResultGroup_eq_specGroup (r : DataRow) (iter : Nat) :
    newResultGroup r iter = specGroup iter r [] := by
  unfold newResultGroup specGroup
  rw [specContests_cons]
  simp [contestChunkEntry, newContestEntry, specContests_nil]

theorem groupLoopGo_spec (pending : List DataRow) (r0 : DataRow) (same : List DataRow)
    (iter : Nat) (acc : List ResultGroup)
    (h0 : SlashFreeRow r0) (hp : ∀ x ∈ pending, SlashFreeRow x) :
    groupLoopGo pending (specGroup iter r0 same) iter acc =
      acc ++ specGroup iter r0
          (same ++ pending.takeWhile fun x => gpKey x == gpKey r0) ::
        specGroups (iter + 1) (pending.dropWhile fun x => gpKey x == gpKey r0) := by
  induction pending generalizing r0 same iter acc with
  | nil => simp [groupLoopGo, specGroups_nil]
  | cons r rest ih =>
      by_cases hkey : gpKey r = gpKey r0
      · have hkeystr : groupKeyStr r iter = groupKeyStr r0 iter :=
          groupKeyStr_congr r r0 iter hkey
        rw [groupLoopGo,
          show (specGroup iter r0 same).id = groupKeyStr r0 iter from rfl]
        rw [if_neg (fun hne => hne hkeystr.symm)]
        have hc : appendRowToContests (specGroup iter r0 same).contests r =
            specContests (r0 :: (same ++ [r])) := by
          rw [show (specGroup iter r0 same).contests = specContests (r0 :: same) from rfl]
          rw [← specContests_append (r0 :: same) r (List.cons_ne_nil r0 same),
            List.cons_append]
        rw [hc]
        have hrec : (⟨groupKeyStr r0 iter, (specGroup iter r0 same).jurisdictionName,
            (specGroup iter r0 same).fileName, (specGroup iter r0 same).createdAt,
            (specGroup iter r0 same).source,
            specContests (r0 :: (same ++ [r]))⟩ : ResultGroup) =
            specGroup iter r0 (same ++ [r]) := rfl
        rw [hrec, ih r0 (same ++ [r]) iter acc h0
          (fun x hx => hp x (List.mem_cons_of_mem r hx))]
        have hpr : (gpKey r == gpKey r0) = true := beq_iff_eq.mpr hkey
        simp [List.takeWhile_cons, List.dropWhile_cons, hpr, List.append_assoc]
      · have hkeystr : groupKeyStr r0 iter ≠ groupKeyStr r iter := by
          intro hEq
          exact hkey (groupKeyStr_inj r r0 iter
            (hp r (List.mem_cons_self r rest)) h0 hEq.symm)
        rw [groupLoopGo,
          show (specGroup iter r0 same).id = groupKeyStr r0 iter from rfl]
        rw [if_pos hkeystr]
        rw [newResultGroup_eq_specGroup]
        rw [ih r [] (iter + 1) (acc ++ [specGroup iter r0 same])
          (hp r (List.mem_cons_self r rest))
          (fun x hx => hp x (List.mem_cons_of_mem r hx))]
        have hpr : (gpKey r == gpKey r0) = false := beq_eq_false_iff_ne.mpr hkey
        simp [List.takeWhile_cons, List.dropWhile_cons, hpr, specGroups_cons,
          List.append_assoc]

theorem specContests_total (n : Nat) :
    ∀ l : List DataRow, l.length ≤ n → ∀ c ∈ specContests l,
      c.totalBallotsCast = (c.candidates.map fun cd => cd.numVotes).sum := by
  induction n with
  | zero =>
      intro l hlen c hc
      cases l with
      | nil => rw [specContests_nil] at hc; cases hc
      | cons x xs => simp at hlen
  | succ n ih =>
      intro l hlen c hc
      cases l with
      | nil => rw [specContests_nil] at hc; cases hc
      | cons x xs =>
          rw [specContests_cons] at hc
          rcases List.mem_cons.mp hc with hc | hc
          · subst hc
            unfold contestChunkEntry
            simp only [List.map_cons, List.map_map, List.sum_cons]
            rfl
          · have hlen' : (xs.dropWhile fun y => y.contest_id == x.contest_id).length ≤ n := by
              have h1 := List.Sublist.length_le (List.dropWhile_sublist
                (fun y => y.contest_id == x.contest_id) (l := xs))
              exact Nat.le_trans h1 (Nat.le_of_succ_le_succ hlen)
            exact ih _ hlen' c hc

theorem specGroups_total (n : Nat) :
    ∀ (iter : Nat) (l : List DataRow), l.length ≤ n → ∀ g ∈ specGroups iter l,
      ∀ c ∈ g.contests,
        c.totalBallotsCast = (c.candidates.map fun cd => cd.numVotes).sum := by
  induction n with
  | zero =>
      intro iter l hlen g hg
      cases l with
      | nil => rw [specGroups_nil] at hg; cases hg
      | cons x xs => simp at hlen
  | succ n ih =>
      intro iter l hlen g hg
      cases l with
      | nil => rw [specGroups_nil] at hg; cases hg
      | cons x xs =>
          rw [specGroups_cons] at hg
          rcases List.mem_cons.mp hg with hg | hg
          · subst hg
            intro c hc
            exact specContests_total _ _ (Nat.le_refl _) c hc
          · have hlen' : (xs.dropWhile fun y => gpKey y == gpKey x).length ≤ n := by
              have h1 := List.Sublist.length_le (List.dropWhile_sublist
                (fun y => gpKey y == gpKey x) (l := xs))
              exact Nat.le_trans h1 (Nat.le_of_succ_le_succ hlen)
            exact ih _ _ hlen' g hg

/-- C8 (amended): provided no jurisdiction or precinct id contains `/` (the
separator of the loop's string group key), the aggregation query — which
sorts the tally rows by `(election, jurisdiction, precinct, contest,
candidate name)` and mutates no row — produces exactly one group per maximal
run of consecutive sorted rows sharing the `(jurisdiction, precinct)` key,
inside it one contest entry per maximal run sharing the contest id, and
every contest entry's `totalBallotsCast` equals the sum of its candidates'
vote counts. -/
theorem get_election_data_matches_spec (rows : List DataRow)
    (hsf : ∀ r ∈ rows, SlashFreeRow r) :
    get_election_data rows = specGroups 0 (List.insertionSort RowLe rows) ∧
    ∀ g ∈ get_election_data rows, ∀ c ∈ g.contests,
      c.totalBallotsCast = (c.candidates.map fun cd => cd.numVotes).sum := by
  have hsorted : ∀ r ∈ List.insertionSort RowLe rows, SlashFreeRow r := fun r hr =>
    hsf r ((List.perm_insertionSort RowLe rows).mem_iff.mp hr)
  have hmain : get_election_data rows = specGroups 0 (List.insertionSort RowLe rows) := by
    unfold get_election_data
    cases hl : List.insertionSort RowLe rows with
    | nil => rw [specGroups_nil]; rfl
    | cons r rest =>
        rw [show groupRows (r :: rest) =
          groupLoopGo rest (newResultGroup r 0) 0 [] from rfl]
        rw [newResultGroup_eq_specGroup]
        rw [groupLoopGo_spec rest r [] 0 []
          (by rw [hl] at hsorted; exact hsorted r (List.mem_cons_self r rest))
          (by rw [hl] at hsorted
              exact fun x hx => hsorted x (List.mem_cons_of_mem r hx))]
        rw [specGroups_cons]
        simp
  refine ⟨hmain, ?_⟩
  rw [hmain]
  exact specGroups_total _ 0 _ (Nat.le_refl _)

/-- C8 counterexample: two rows with different `(jurisdiction, precinct)`
keys — `("a", "b/c")` and `("a/b", "c")` — whose `/`-joined group keys
collide, so the loop merges them into a single group instead of starting a
new one when the key changes. -/
theorem get_election_data_slash_collision_counterexample :
    (get_election_data
        [⟨"e", "a", "J1", "b/c", "P1", "x", "C1", "k1", "A", 5, "File", 10⟩,
         ⟨"e", "a/b", "J2", "c", "P2", "y", "C2", "k2", "B", 6, "File", 7⟩]).length = 1 ∧
    gpKey ⟨"e", "a", "J1", "b/c", "P1", "x", "C1", "k1", "A", 5, "File", 10⟩ ≠
      gpKey ⟨"e", "a/b", "J2", "c", "P2", "y", "C2", "k2", "B", 6, "File", 7⟩ := by
  decide

/-- C8 witness: the amended theorem applied to the spec's own example —
one precinct, one contest, candidates with 10 and 5 votes — plus the
directly evaluated aggregate showing `totalBallotsCast = 15`. -/
theorem get_election_data_matches_spec_witness :
    (get_election_data
        [⟨"e", "j", "Kent", "p", "P1", "c", "Mayor", "k1", "A", 5, "File", 10⟩,
         ⟨"e", "j", "Kent", "p", "P1", "c", "Mayor", "k2", "B", 6, "File", 5⟩] =
      specGroups 0 (List.insertionSort RowLe
        [⟨"e", "j", "Kent", "p", "P1", "c", "Mayor", "k1", "A", 5, "File", 10⟩,
         ⟨"e", "j", "Kent", "p", "P1", "c", "Mayor", "k2", "B", 6, "File", 5⟩]) ∧
     ∀ g ∈ get_election_data
        [⟨"e", "j", "Kent", "p", "P1", "c", "Mayor", "k1", "A", 5, "File", 10⟩,
         ⟨"e", "j", "Kent", "p", "P1", "c", "Mayor", "k2", "B", 6, "File", 5⟩],
       ∀ c ∈ g.contests,
         c.totalBallotsCast = (c.candidates.map fun cd => cd.numVotes).sum) ∧
    (get_election_data
        [⟨"e", "j", "Kent", "p", "P1", "c", "Mayor", "k1", "A", 5, "File", 10⟩,
         ⟨"e", "j", "Kent", "p", "P1", "c", "Mayor", "k2", "B", 6, "File", 5⟩]).map
      (fun g => g.contests.map fun c => c.totalBallotsCast) = [[15]] :=
  ⟨get_election_data_matches_spec
      [⟨"e", "j", "Kent", "p", "P1", "c", "Mayor", "k1", "A", 5, "File", 10⟩,
       ⟨"e", "j", "Kent", "p", "P1", "c", "Mayor", "k2", "B", 6, "File", 5⟩]
      (by decide),
    by decide⟩

/-! ### Definitions bulk loader (claims C1, C3, C4)

`server/api/elections.py`, `bulk_update_from_definitions` (lines 64–134),
over the tables of `server/models.py`.  Python's dynamically-typed
`definitions_file_id` column receives strings from the JSON document and, for
the synthetic write-in candidate, the integer `len(itr_contest['candidates'])`
— modelled as a sum. -/

/-- The value stored in a `definitions_file_id` column: a string id from the
definitions document, or the integer Python stores for the write-in row. -/
inductive DefFileId where
  | str (s : String)
  | int (n : Nat)
  deriving DecidableEq, Repr

/-- A row of the `State` table (`server/models.py`): name unique. -/
structure StateRow where
  id : RowId
  name : String
  deriving DecidableEq, Repr

/-- A row of the `Precinct` table: unique per `(jurisdiction_id, name)`. -/
structure PrecinctRow where
  id : RowId
  name : String
  definitions_file_id : DefFileId
  jurisdiction_id : RowId
  deriving DecidableEq, Repr

/-- A row of the `Contest` table: unique per `(election_id, name)`. -/
structure ContestRow where
  id : RowId
  name : String
  type : String
  seats : Nat
  allow_write_ins : Bool
  definitions_file_id : DefFileId
  election_id : RowId
  deriving DecidableEq, Repr

/-- A row of the `Candidate` table: unique per `(contest_id, name)`. -/
structure CandidateRow where
  id : RowId
  name : String
  definitions_file_id : DefFileId
  contest_id : RowId
  deriving DecidableEq, Repr

/-- The tables `bulk_update_from_definitions` touches, with the fresh-id
counter modelling `str(uuid.uuid4())`. -/
structure DefDB where
  states : List StateRow
  jurisdictions : List JurisdictionRow
  precincts : List PrecinctRow
  election_jurisdictions : List EJRow
  contests : List ContestRow
  candidates : List CandidateRow
  next_id : Nat
  deriving DecidableEq, Repr

/-- One precinct of a definitions document. -/
structure PrecinctDef where
  id : String
  name : String
  deriving DecidableEq, Repr

/-- One county of a definitions document. -/
structure CountyDef where
  id : String
  name : String
  precincts : List PrecinctDef
  deriving DecidableEq, Repr

/-- One candidate of a definitions document. -/
structure CandidateDef where
  id : String
  name : String
  deriving DecidableEq, Repr

/-- One contest of a definitions document. -/
structure ContestDef where
  id : String
  type : String
  title : String
  seats : Nat
  allowWriteIns : Bool
  candidates : List CandidateDef
  deriving DecidableEq, Repr

/-- A schema-valid definitions document. -/
structure DefinitionJson where
  title : String
  state : String
  counties : List CountyDef
  contests : List ContestDef
  deriving DecidableEq, Repr

/-- `definition_json['state'].replace("State of", "").strip()` — note Python
`replace` removes every occurrence, not only a prefix. -/
def stateNameKey (s : String) : String := pyStrip (pyReplace s "State of" "")

/-- `itr_county["name"].replace("County", "").strip()`. -/
def countyNameKey (s : String) : String := pyStrip (pyReplace s "County" "")

/-- `State.query.filter_by(name=...).one_or_none()`. -/
def resolveState (db : DefDB) (s : String) : Except ApiError (Option StateRow) :=
  oneOrNone (db.states.filter fun r => r.name == stateNameKey s)

/-- `Jurisdiction.query.filter_by(name=..., state_id=...).one_or_none()`. -/
def resolveCounty (db : DefDB) (stateId : RowId) (name : String) :
    Except ApiError (Option JurisdictionRow) :=
  oneOrNone (db.jurisdictions.filter fun j =>
    (j.name, j.state_id) == (countyNameKey name, stateId))

/-- Checked insert into `ElectionJurisdiction` (primary key
`(election_id, jurisdiction_id)`; SQLAlchemy raises at flush, with the same
all-or-nothing outcome inside the nested transaction). -/
def insertEJ (db : DefDB) (eid jid : RowId) : Except ApiError DefDB :=
  if db.election_jurisdictions.any fun r =>
      (r.election_id, r.jurisdiction_id) == (eid, jid) then
    .error (.uniqueViolation "election_jurisdiction_pkey")
  else
    .ok { db with election_jurisdictions := db.election_jurisdictions ++ [⟨eid, jid⟩] }

/-- Checked insert into `Contest` (unique `(election_id, name)`). -/
def insertContest (db : DefDB) (c : ContestRow) : Except ApiError DefDB :=
  if db.contests.any fun x => (x.election_id, x.name) == (c.election_id, c.name) then
    .error (.uniqueViolation ("contest_election_id_name_key (" ++ c.name ++ ")"))
  else
    .ok { db with contests := db.contests ++ [c] }

/-- Checked insert into `Candidate` (unique `(contest_id, name)`). -/
def insertCandidate (db : DefDB) (c : CandidateRow) : Except ApiError DefDB :=
  if db.candidates.any fun x => (x.contest_id, x.name) == (c.contest_id, c.name) then
    .error (.uniqueViolation ("candidate_contest_id_name_key (" ++ c.name ++ ")"))
  else
    .ok { db with candidates := db.candidates ++ [c] }

/-- The precinct loop of one county: find-or-create each precinct by
`(name, jurisdiction_id)`, preserving the external definitions-file id. -/
def loadPrecincts (jid : RowId) : List PrecinctDef → DefDB → Except ApiError DefDB
  | [], db => .ok db
  | p :: rest, db =>
      match oneOrNone (db.precincts.filter fun x =>
          (x.name, x.jurisdiction_id) == (p.name, jid)) with
      | .error e => .error e
      | .ok (some _) => loadPrecincts jid rest db
      | .ok none =>
          loadPrecincts jid rest
            { db with
                precincts := db.precincts ++ [⟨.gen db.next_id, p.name, .str p.id, jid⟩],
                next_id := db.next_id + 1 }

/-- The county loop: resolve each county among the pre-seeded jurisdictions
of the state (never auto-created; a miss raises the `Invalid County`
`Conflict`), link the election, and load the county's precincts. -/
def loadCounties (eid stateId : RowId) :
    List CountyDef → DefDB → Except ApiError DefDB
  | [], db => .ok db
  | c :: rest, db =>
      match resolveCounty db stateId c.name with
      | .error e => .error e
      | .ok none =>
          .error (.conflict ("Definitions file error: Invalid County (\x27" ++
            c.name ++ "\x27)"))
      | .ok (some j) =>
          match insertEJ db eid j.id with
          | .error e => .error e
          | .ok db₂ =>
              match loadPrecincts j.id c.precincts db₂ with
              | .error e => .error e
              | .ok db₃ => loadCounties eid stateId rest db₃

/-- The candidate loop of one contest: create each declared candidate under
the contest. -/
def loadCandidates (cid : RowId) : List CandidateDef → DefDB → Except ApiError DefDB
  | [], db => .ok db
  | cd :: rest, db =>
      match insertCandidate { db with next_id := db.next_id + 1 }
          ⟨.gen db.next_id, cd.name, .str cd.id, cid⟩ with
      | .error e => .error e
      | .ok db₂ => loadCandidates cid rest db₂

/-- One contest at a known fresh id: create the contest row, its declared
candidates, and — when write-ins are allowed — one synthetic `Write-in`
candidate whose external id is the count of declared candidates. -/
def loadContestWith (eid : RowId) (ct : ContestDef) (cid : RowId) (db : DefDB) :
    Except ApiError DefDB :=
  match insertContest db
      ⟨cid, ct.title, ct.type, ct.seats, ct.allowWriteIns, .str ct.id, eid⟩ with
  | .error e => .error e
  | .ok db₂ =>
      match loadCandidates cid ct.candidates db₂ with
      | .error e => .error e
      | .ok db₃ =>
          if ct.allowWriteIns then
            insertCandidate { db₃ with next_id := db₃.next_id + 1 }
              ⟨.gen db₃.next_id, "Write-in", .int ct.candidates.length, cid⟩
          else .ok db₃

/-- One contest: draw the fresh contest id from the counter. -/
def loadContest (eid : RowId) (ct : ContestDef) (db : DefDB) : Except ApiError DefDB :=
  loadContestWith eid ct (.gen db.next_id) { db with next_id := db.next_id + 1 }

/-- The contest loop. -/
def loadContests (eid : RowId) : List ContestDef → DefDB → Except ApiError DefDB
  | [], db => .ok db
  | ct :: rest, db =>
      match loadContest eid ct db with
      | .error e => .error e
      | .ok db₂ => loadContests eid rest db₂

/-- `bulk_update_from_definitions`: resolve the state (fatal `Invalid State`
`Conflict` on a miss), load every county, then every contest. -/
def bulk_update_from_definitions (db : DefDB) (eid : RowId) (doc : DefinitionJson) :
    Except ApiError DefDB :=
  match resolveState db doc.state with
  | .error e => .error e
  | .ok none =>
      .error (.conflict ("Definitions file error: Invalid State (\x27" ++
        doc.state ++ "\x27)"))
  | .ok (some st) =>
      match loadCounties eid st.id doc.counties db with
      | .error e => .error e
      | .ok db₂ => loadContests eid doc.contests db₂

/-- The `with session.begin_nested()` wrapper: any raised error rolls every
write back, leaving the database unchanged. -/
def runBulkUpdateFromDefinitions (db : DefDB) (eid : RowId) (doc : DefinitionJson) :
    DefDB × Option ApiError :=
  match bulk_update_from_definitions db eid doc with
  | .ok db' => (db', none)
  | .error e => (db, some e)

/-- The storage-layer invariants of `models.py` the loader relies on: each
table's uniqueness constraint, plus freshness of generated ids — every
candidate row's `contest_id` that is a generated id lies below the fresh-id
counter (uuid4 values never collide with ids yet to be drawn). -/
def DefDB.WF (db : DefDB) : Prop :=
  (db.states.map fun r => r.name).Nodup ∧
  (db.jurisdictions.map fun j => (j.name, j.state_id)).Nodup ∧
  (db.precincts.map fun p => (p.name, p.jurisdiction_id)).Nodup ∧
  (db.election_jurisdictions.map fun r => (r.election_id, r.jurisdiction_id)).Nodup ∧
  (db.contests.map fun c => (c.election_id, c.name)).Nodup ∧
  (db.candidates.map fun c => (c.contest_id, c.name)).Nodup ∧
  ∀ r ∈ db.candidates, r.contest_id.genLt db.next_id = true

instance (db : DefDB) : Decidable db.WF := by
  unfold DefDB.WF
  infer_instance

theorem filter_key_nodup {α κ : Type} [BEq κ] [LawfulBEq κ] (l : List α) (k : α → κ)
    (v : κ) (h : (l.map k).Nodup) :
    l.filter (fun x => k x == v) = [] ∨
      ∃ a, l.filter (fun x => k x == v) = [a] ∧ k a = v ∧ a ∈ l := by
  induction l with
  | nil => exact Or.inl rfl
  | cons x xs ih =>
      rw [List.map_cons, List.nodup_cons] at h
      rw [List.filter_cons]
      cases hx : (k x == v) with
      | false =>
          simp only [Bool.false_eq_true, if_false]
          rcases ih h.2 with h0 | ⟨a, ha, hk, hm⟩
          · exact Or.inl h0
          · exact Or.inr ⟨a, ha, hk, List.mem_cons_of_mem x hm⟩
      | true =>
          simp only [if_true]
          have hkx : k x = v := beq_iff_eq.mp hx
          have hnil : xs.filter (fun y => k y == v) = [] := by
            rw [List.filter_eq_nil_iff]
            intro y hy
            rw [Bool.not_eq_true, beq_eq_false_iff_ne]
            intro hEq
            apply h.1
            rw [hkx, ← hEq]
            exact List.mem_map_of_mem k hy
          rw [hnil]
          exact Or.inr ⟨x, rfl, hkx, List.mem_cons_self x xs⟩

theorem nodup_key_inj {α κ : Type} (l : List α) (k : α → κ) (h : (l.map k).Nodup)
    {a b : α} (ha : a ∈ l) (hb : b ∈ l) (hk : k a = k b) : a = b := by
  induction l with
  | nil => cases ha
  | cons x xs ih =>
      rw [List.map_cons, List.nodup_cons] at h
      rcases List.mem_cons.mp ha with ha1 | ha2 <;>
        rcases List.mem_cons.mp hb with hb1 | hb2
      · rw [ha1, hb1]
      · exfalso
        apply h.1
        rw [← ha1, hk]
        exact List.mem_map_of_mem k hb2
      · exfalso
        apply h.1
        rw [← hb1, ← hk]
        exact List.mem_map_of_mem k ha2
      · exact ih h.2 ha2 hb2

theorem filter_key_eq_singleton {α κ : Type} [BEq κ] [LawfulBEq κ] (l : List α)
    (k : α → κ) (a : α) (h : (l.map k).Nodup) (ha : a ∈ l) :
    l.filter (fun x => k x == k a) = [a] := by
  rcases filter_key_nodup l k (k a) h with h0 | ⟨b, hb, hkb, hmb⟩
  · exfalso
    have hmem : a ∈ l.filter (fun x => k x == k a) :=
      List.mem_filter.mpr ⟨ha, by simp⟩
    rw [h0] at hmem
    cases hmem
  · rw [hb, nodup_key_inj l k h hmb ha hkb]

theorem any_key_of_mem {α κ : Type} [BEq κ] [LawfulBEq κ] (l : List α) (k : α → κ)
    (a : α) (ha : a ∈ l) : (l.any fun x => k x == k a) = true := by
  rw [List.any_eq_true]
  exact ⟨a, ha, by simp⟩

theorem nodup_key_append {α κ : Type} [BEq κ] [LawfulBEq κ] (l : List α) (k : α → κ)
    (a : α) (h : (l.map k).Nodup) (habs : (l.any fun x => k x == k a) = false) :
    ((l ++ [a]).map k).Nodup := by
  rw [List.map_append, List.nodup_append]
  refine ⟨h, List.nodup_singleton _, ?_⟩
  intro v hv hv2
  simp only [List.map_cons, List.map_nil, List.mem_singleton] at hv2
  subst hv2
  rw [List.any_eq_false] at habs
  obtain ⟨y, hy, hky⟩ := List.mem_map.mp hv
  exact absurd (show (k y == k a) = true by rw [hky]; simp) (habs y hy)

theorem filter_nil_any_false {α : Type} (l : List α) (p : α → Bool)
    (h : l.filter p = []) : l.any p = false := by
  rw [List.filter_eq_nil_iff] at h
  rw [List.any_eq_false]
  intro x hx
  exact fun hpx => (h x hx) hpx

theorem loadPrecincts_fwd (jid : RowId) (ps : List PrecinctDef) (db : DefDB)
    (hpn : (db.precincts.map fun p => (p.name, p.jurisdiction_id)).Nodup) :
    ∃ db', loadPrecincts jid ps db = .ok db' ∧
      db'.states = db.states ∧ db'.jurisdictions = db.jurisdictions ∧
      db'.election_jurisdictions = db.election_jurisdictions ∧
      db'.contests = db.contests ∧ db'.candidates = db.candidates ∧
      (∃ s, db'.precincts = db.precincts ++ s) ∧
      db.next_id ≤ db'.next_id ∧
      (db'.precincts.map fun p => (p.name, p.jurisdiction_id)).Nodup ∧
      ∀ p ∈ ps, ∃ row ∈ db'.precincts,
        (row.name, row.jurisdiction_id) = (p.name, jid) := by
  induction ps generalizing db with
  | nil =>
      exact ⟨db, rfl, rfl, rfl, rfl, rfl, rfl, ⟨[], by simp⟩, Nat.le_refl _, hpn,
        by simp⟩
  | cons p rest ih =>
      rcases filter_key_nodup db.precincts (fun x => (x.name, x.jurisdiction_id))
        (p.name, jid) hpn with hnil | ⟨row, hrow, hk, hm⟩
      · have hstep : loadPrecincts jid (p :: rest) db =
            loadPrecincts jid rest
              { db with
                  precincts := db.precincts ++ [⟨.gen db.next_id, p.name, .str p.id, jid⟩],
                  next_id := db.next_id + 1 } := by
          rw [loadPrecincts, hnil]
          rfl
        have hpn₂ : (((db.precincts ++
            [(⟨.gen db.next_id, p.name, .str p.id, jid⟩ : PrecinctRow)]).map
              fun x => (x.name, x.jurisdiction_id)).Nodup) :=
          nodup_key_append db.precincts _
            (⟨.gen db.next_id, p.name, .str p.id, jid⟩ : PrecinctRow) hpn
            (filter_nil_any_false _ _ hnil)
        obtain ⟨db', hok, hs, hj, he, hc, hcand, ⟨s, hps⟩, hnext, hnod, hpres⟩ :=
          ih { db with
              precincts := db.precincts ++ [⟨.gen db.next_id, p.name, .str p.id, jid⟩],
              next_id := db.next_id + 1 } hpn₂
        refine ⟨db', by rw [hstep]; exact hok, hs, hj, he, hc, hcand,
          ⟨[⟨.gen db.next_id, p.name, .str p.id, jid⟩] ++ s, by
            rw [hps]; simp⟩, Nat.le_trans (Nat.le_succ _) hnext, hnod, ?_⟩
        intro q hq
        rcases List.mem_cons.mp hq with hq | hq
        · subst hq
          refine ⟨⟨.gen db.next_id, q.name, .str q.id, jid⟩, ?_, rfl⟩
          rw [hps]
          exact List.mem_append_left _ (List.mem_append_right _ (by simp))
        · exact hpres q hq
      · have hstep : loadPrecincts jid (p :: rest) db = loadPrecincts jid rest db := by
          rw [loadPrecincts, hrow]
          rfl
        obtain ⟨db', hok, hs, hj, he, hc, hcand, ⟨s, hps⟩, hnext, hnod, hpres⟩ :=
          ih db hpn
        refine ⟨db', by rw [hstep]; exact hok, hs, hj, he, hc, hcand, ⟨s, hps⟩,
          hnext, hnod, ?_⟩
        intro q hq
        rcases List.mem_cons.mp hq with hq | hq
        · subst hq
          exact ⟨row, by rw [hps]; exact List.mem_append_left _ hm, hk⟩
        · exact hpres q hq

theorem insertEJ_ok (db : DefDB) (eid jid : RowId) (db₂ : DefDB)
    (h : insertEJ db eid jid = .ok db₂) :
    db₂ = { db with election_jurisdictions := db.election_jurisdictions ++ [⟨eid, jid⟩] } ∧
    (db.election_jurisdictions.any fun r =>
      (r.election_id, r.jurisdiction_id) == (eid, jid)) = false := by
  unfold insertEJ at h
  split at h
  · cases h
  · rename_i hcond
    cases h
    exact ⟨rfl, Bool.of_not_eq_true hcond⟩

theorem insertEJ_error (db : DefDB) (eid jid : RowId) (e : ApiError)
    (h : insertEJ db eid jid = .error e) :
    e = .uniqueViolation "election_jurisdiction_pkey" := by
  unfold insertEJ at h
  split at h
  · cases h
    rfl
  · cases h

theorem resolveCounty_congr (db₂ db : DefDB) (stateId : RowId) (name : String)
    (hj : db₂.jurisdictions = db.jurisdictions) :
    resolveCounty db₂ stateId name = resolveCounty db stateId name := by
  unfold resolveCounty
  rw [hj]

theorem resolveCounty_ok (db : DefDB) (stateId : RowId) (name : String)
    (hjn : (db.jurisdictions.map fun j => (j.name, j.state_id)).Nodup) :
    ∃ o, resolveCounty db stateId name = .ok o := by
  unfold resolveCounty
  rcases filter_key_nodup db.jurisdictions (fun j => (j.name, j.state_id))
    (countyNameKey name, stateId) hjn with hnil | ⟨a, ha, -, -⟩
  · exact ⟨none, by rw [hnil]; rfl⟩
  · exact ⟨some a, by rw [ha]; rfl⟩

theorem loadCounties_cons_some (eid stateId : RowId) (c : CountyDef)
    (rest : List CountyDef) (db : DefDB) (j : JurisdictionRow)
    (hr : resolveCounty db stateId c.name = .ok (some j)) :
    loadCounties eid stateId (c :: rest) db =
      match insertEJ db eid j.id with
      | .error e => .error e
      | .ok db₂ =>
          match loadPrecincts j.id c.precincts db₂ with
          | .error e => .error e
          | .ok db₃ => loadCounties eid stateId rest db₃ := by
  rw [loadCounties, hr]

theorem loadCounties_cons_resolved (eid stateId : RowId) (c : CountyDef)
    (rest : List CountyDef) (db : DefDB) (j : JurisdictionRow) (db₂ : DefDB)
    (hr : resolveCounty db stateId c.name = .ok (some j))
    (hej : insertEJ db eid j.id = .ok db₂) :
    loadCounties eid stateId (c :: rest) db =
      match loadPrecincts j.id c.precincts db₂ with
      | .error e => .error e
      | .ok db₃ => loadCounties eid stateId rest db₃ := by
  rw [loadCounties_cons_some eid stateId c rest db j hr, hej]

theorem loadCounties_cons_full (eid stateId : RowId) (c : CountyDef)
    (rest : List CountyDef) (db : DefDB) (j : JurisdictionRow) (db₂ db₃ : DefDB)
    (hr : resolveCounty db stateId c.name = .ok (some j))
    (hej : insertEJ db eid j.id = .ok db₂)
    (hpok : loadPrecincts j.id c.precincts db₂ = .ok db₃) :
    loadCounties eid stateId (c :: rest) db = loadCounties eid stateId rest db₃ := by
  rw [loadCounties_cons_resolved eid stateId c rest db j db₂ hr hej, hpok]

theorem loadCounties_char (eid stateId : RowId) (cs : List CountyDef) (db db' : DefDB)
    (hok : loadCounties eid stateId cs db = .ok db')
    (hpn : (db.precincts.map fun p => (p.name, p.jurisdiction_id)).Nodup)
    (hejn : (db.election_jurisdictions.map fun r =>
      (r.election_id, r.jurisdiction_id)).Nodup) :
    db'.states = db.states ∧ db'.jurisdictions = db.jurisdictions ∧
    db'.contests = db.contests ∧ db'.candidates = db.candidates ∧
    (∃ s, db'.election_jurisdictions = db.election_jurisdictions ++ s) ∧
    (∃ s, db'.precincts = db.precincts ++ s) ∧
    db.next_id ≤ db'.next_id ∧
    (db'.precincts.map fun p => (p.name, p.jurisdiction_id)).Nodup ∧
    (db'.election_jurisdictions.map fun r =>
      (r.election_id, r.jurisdiction_id)).Nodup ∧
    ∀ c ∈ cs, ∃ j ∈ db.jurisdictions,
      (j.name, j.state_id) = (countyNameKey c.name, stateId) ∧
      (⟨eid, j.id⟩ : EJRow) ∈ db'.election_jurisdictions ∧
      ∀ p ∈ c.precincts, ∃ row ∈ db'.precincts,
        (row.name, row.jurisdiction_id) = (p.name, j.id) := by
  induction cs generalizing db with
  | nil =>
      rw [loadCounties] at hok
      cases hok
      exact ⟨rfl, rfl, rfl, rfl, ⟨[], by simp⟩, ⟨[], by simp⟩, Nat.le_refl _, hpn,
        hejn, by simp⟩
  | cons c rest ih =>
      rw [loadCounties] at hok
      split at hok
      · cases hok
      · cases hok
      rename_i j hr
      split at hok
      · cases hok
      rename_i db₂ hej
      obtain ⟨hdb₂, habs⟩ := insertEJ_ok db eid j.id db₂ hej
      subst hdb₂
      split at hok
      · cases hok
      rename_i db₃ hp
      obtain ⟨db₃f, hpok, h3s, h3j, h3e, h3c, h3cand, ⟨sp, h3p⟩, h3next, h3pn, h3pres⟩ :=
        loadPrecincts_fwd j.id c.precincts
          { db with election_jurisdictions := db.election_jurisdictions ++ [⟨eid, j.id⟩] }
          hpn
      rw [hp] at hpok
      cases hpok
      have hejn₃ : (db₃.election_jurisdictions.map fun r =>
          (r.election_id, r.jurisdiction_id)).Nodup := by
        rw [h3e]
        exact nodup_key_append db.election_jurisdictions _ (⟨eid, j.id⟩ : EJRow) hejn habs
      obtain ⟨hs, hjur, hc, hcand, ⟨se, hse⟩, ⟨spp, hspp⟩, hnext, hpn', hejn', hcs⟩ :=
        ih db₃ hok h3pn hejn₃
      have hjmem := oneOrNone_ok_some _ _ hr
      have hjkey := List.of_mem_filter hjmem
      refine ⟨by rw [hs, h3s], by rw [hjur, h3j], by rw [hc, h3c],
        by rw [hcand, h3cand], ?_, ?_, ?_, hpn', hejn', ?_⟩
      · refine ⟨[⟨eid, j.id⟩] ++ se, ?_⟩
        rw [hse, h3e]
        simp
      · refine ⟨sp ++ spp, ?_⟩
        rw [hspp, h3p]
        simp
      · calc db.next_id ≤ db₃.next_id := h3next
          _ ≤ db'.next_id := hnext
      · intro c' hc'
        rcases List.mem_cons.mp hc' with hc' | hc'
        · subst hc'
          refine ⟨j, List.mem_of_mem_filter hjmem, beq_iff_eq.mp hjkey, ?_, ?_⟩
          · have : (⟨eid, j.id⟩ : EJRow) ∈ db₃.election_jurisdictions := by
              rw [h3e]
              exact List.mem_append_right _ (by simp)
            rw [hse]
            exact List.mem_append_left _ this
          · intro p hp'
            obtain ⟨row, hrow, hkey⟩ := h3pres p hp'
            exact ⟨row, by rw [hspp]; exact List.mem_append_left _ hrow, hkey⟩
        · obtain ⟨j', hj'm, hj'k, hj'e, hj'p⟩ := hcs c' hc'
          rw [h3j] at hj'm
          exact ⟨j', hj'm, hj'k, hj'e, hj'p⟩

theorem loadCounties_fails (eid stateId : RowId) (cs : List CountyDef) (db : DefDB)
    (hjn : (db.jurisdictions.map fun j => (j.name, j.state_id)).Nodup)
    (hpn : (db.precincts.map fun p => (p.name, p.jurisdiction_id)).Nodup)
    (hbad : ∃ c ∈ cs, resolveCounty db stateId c.name = .ok none) :
    ∃ e, loadCounties eid stateId cs db = .error e ∧ e.isConflictKind = true := by
  induction cs generalizing db with
  | nil =>
      obtain ⟨c, hc, -⟩ := hbad
      cases hc
  | cons c rest ih =>
      cases hr : resolveCounty db stateId c.name with
      | error e =>
          obtain ⟨o, ho⟩ := resolveCounty_ok db stateId c.name hjn
          rw [hr] at ho
          cases ho
      | ok jOpt =>
          cases jOpt with
          | none =>
              exact ⟨.conflict ("Definitions file error: Invalid County (\x27" ++
                c.name ++ "\x27)"), by rw [loadCounties, hr], rfl⟩
          | some j =>
              have hbadrest : ∃ c' ∈ rest, resolveCounty db stateId c'.name = .ok none := by
                obtain ⟨c', hc', hres⟩ := hbad
                rcases List.mem_cons.mp hc' with hEq | hmem
                · subst hEq
                  rw [hr] at hres
                  cases hres
                · exact ⟨c', hmem, hres⟩
              cases hej : insertEJ db eid j.id with
              | error e =>
                  refine ⟨e, ?_, ?_⟩
                  · rw [loadCounties_cons_some eid stateId c rest db j hr, hej]
                  · rw [insertEJ_error db eid j.id e hej]
                    rfl
              | ok db₂ =>
                  obtain ⟨hdb₂, -⟩ := insertEJ_ok db eid j.id db₂ hej
                  subst hdb₂
                  obtain ⟨db₃, hpok, h3s, h3j, h3e, h3c, h3cand, -, -, h3pn, -⟩ :=
                    loadPrecincts_fwd j.id c.precincts
                      { db with election_jurisdictions :=
                          db.election_jurisdictions ++ [⟨eid, j.id⟩] } hpn
                  have hjn₃ : (db₃.jurisdictions.map fun x =>
                      (x.name, x.state_id)).Nodup := by
                    rw [h3j]
                    exact hjn
                  have hbad₃ : ∃ c' ∈ rest, resolveCounty db₃ stateId c'.name = .ok none := by
                    obtain ⟨c', hm, hres⟩ := hbadrest
                    refine ⟨c', hm, ?_⟩
                    rw [resolveCounty_congr db₃ db stateId c'.name (by rw [h3j])]
                    exact hres
                  obtain ⟨e, he, hek⟩ := ih db₃ hjn₃ h3pn hbad₃
                  refine ⟨e, ?_, hek⟩
                  rw [loadCounties_cons_full eid stateId c rest db j _ db₃ hr hej hpok]
                  exact he

theorem isValidation_false_of_conflictKind (e : ApiError)
    (h : e.isConflictKind = true) : e.isValidation = false := by
  cases e <;> simp [ApiError.isConflictKind, ApiError.isValidation] at h ⊢

theorem bulk_update_resolved (db : DefDB) (eid : RowId) (doc : DefinitionJson)
    (st : StateRow) (hst : resolveState db doc.state = .ok (some st)) :
    bulk_update_from_definitions db eid doc =
      match loadCounties eid st.id doc.counties db with
      | .error e => .error e
      | .ok db₂ => loadContests eid doc.contests db₂ := by
  unfold bulk_update_from_definitions
  rw [hst]

/-- C1 (amended): a definition document whose state name resolves to no
`State` (the code removes every occurrence of the literal `State of` and
trims whitespace) makes `bulk_update_from_definitions` fail with a werkzeug
`Conflict` — a conflict-kind error, not a distinct validation kind — whose
text names the invalid state, leaving zero new jurisdiction links,
precincts, contests, or candidates; likewise a county name resolving to no
`Jurisdiction` of the resolved state makes the load fail with a
conflict-kind error and no new rows (the `Invalid County` conflict naming
the county, unless a duplicate-link uniqueness conflict on an earlier county
fires first). -/
theorem bulk_update_invalid_state_or_county (db : DefDB) (eid : RowId)
    (doc : DefinitionJson) (hwf : db.WF) :
    (resolveState db doc.state = .ok none →
      runBulkUpdateFromDefinitions db eid doc =
        (db, some (.conflict ("Definitions file error: Invalid State (\x27" ++
          doc.state ++ "\x27)"))) ∧
      ApiError.isConflictKind (.conflict ("Definitions file error: Invalid State (\x27" ++
        doc.state ++ "\x27)")) = true ∧
      ApiError.isValidation (.conflict ("Definitions file error: Invalid State (\x27" ++
        doc.state ++ "\x27)")) = false) ∧
    (∀ st, resolveState db doc.state = .ok (some st) →
      (∃ c ∈ doc.counties, resolveCounty db st.id c.name = .ok none) →
      ∃ e, runBulkUpdateFromDefinitions db eid doc = (db, some e) ∧
        e.isConflictKind = true ∧ e.isValidation = false) := by
  obtain ⟨hsn, hjn, hpn, hejn, hcn, hcdn, hgb⟩ := hwf
  constructor
  · intro hnone
    refine ⟨?_, rfl, rfl⟩
    unfold runBulkUpdateFromDefinitions bulk_update_from_definitions
    rw [hnone]
  · intro st hst hbad
    obtain ⟨e, he, hek⟩ := loadCounties_fails eid st.id doc.counties db hjn hpn hbad
    refine ⟨e, ?_, hek, isValidation_false_of_conflictKind e hek⟩
    unfold runBulkUpdateFromDefinitions
    rw [bulk_update_resolved db eid doc st hst, he]

/-- C1 counterexample: a document naming the unknown state `Atlantis` makes
the loader raise the werkzeug `Conflict` `Invalid State` error — the same
kind as the conflict errors, not a distinct validation kind — refuting the
claim that the failure is a validation error distinct in kind from a
conflict error. -/
theorem bulk_update_invalid_state_is_conflict_counterexample :
    (runBulkUpdateFromDefinitions ⟨[⟨.named "s1", "Kansas"⟩], [], [], [], [], [], 0⟩
        (.named "e1") ⟨"t", "Atlantis", [], []⟩).2 =
      some (.conflict "Definitions file error: Invalid State (\x27Atlantis\x27)") ∧
    ApiError.isValidation
      (.conflict "Definitions file error: Invalid State (\x27Atlantis\x27)") = false ∧
    ApiError.isConflictKind
      (.conflict "Definitions file error: Invalid State (\x27Atlantis\x27)") = true ∧
    (runBulkUpdateFromDefinitions ⟨[⟨.named "s1", "Kansas"⟩], [], [], [], [], [], 0⟩
        (.named "e1") ⟨"t", "Atlantis", [], []⟩).1 =
      ⟨[⟨.named "s1", "Kansas"⟩], [], [], [], [], [], 0⟩ := by
  decide

/-- C1 witness: the amended theorem applied to a document naming state
`State of Kansas` (which resolves) and the unknown county `Badland County`. -/
theorem bulk_update_invalid_county_witness :
    ∃ e, runBulkUpdateFromDefinitions
        ⟨[⟨.named "s1", "Kansas"⟩], [⟨.named "j1", "Kent", .named "s1"⟩], [], [], [], [], 0⟩
        (.named "e1")
        ⟨"t", "State of Kansas", [⟨"c9", "Badland County", []⟩], []⟩ =
      (⟨[⟨.named "s1", "Kansas"⟩], [⟨.named "j1", "Kent", .named "s1"⟩], [], [], [], [], 0⟩,
        some e) ∧
      e.isConflictKind = true ∧ e.isValidation = false :=
  (bulk_update_invalid_state_or_county
      ⟨[⟨.named "s1", "Kansas"⟩], [⟨.named "j1", "Kent", .named "s1"⟩], [], [], [], [], 0⟩
      (.named "e1")
      ⟨"t", "State of Kansas", [⟨"c9", "Badland County", []⟩], []⟩
      (by decide)).2
    ⟨.named "s1", "Kansas"⟩ (by decide)
    ⟨⟨"c9", "Badland County", []⟩, by decide, by decide⟩

theorem insertContest_ok (db : DefDB) (c : ContestRow) (db₂ : DefDB)
    (h : insertContest db c = .ok db₂) :
    db₂ = { db with contests := db.contests ++ [c] } ∧
    (db.contests.any fun x =>
      (x.election_id, x.name) == (c.election_id, c.name)) = false := by
  unfold insertContest at h
  split at h
  · cases h
  · rename_i hcond
    cases h
    exact ⟨rfl, Bool.of_not_eq_true hcond⟩

theorem insertCandidate_ok (db : DefDB) (c : CandidateRow) (db₂ : DefDB)
    (h : insertCandidate db c = .ok db₂) :
    db₂ = { db with candidates := db.candidates ++ [c] } ∧
    (db.candidates.any fun x =>
      (x.contest_id, x.name) == (c.contest_id, c.name)) = false := by
  unfold insertCandidate at h
  split at h
  · cases h
  · rename_i hcond
    cases h
    exact ⟨rfl, Bool.of_not_eq_true hcond⟩

theorem RowId.genLt_mono (i : RowId) (b b' : Nat) (hb : b ≤ b')
    (h : i.genLt b = true) : i.genLt b' = true := by
  cases i with
  | named s => rfl
  | gen n =>
      simp only [RowId.genLt, decide_eq_true_eq] at h ⊢
      omega

theorem RowId.genLt_false_mono (i : RowId) (b b' : Nat) (hb : b ≤ b')
    (h : i.genLt b' = false) : i.genLt b = false := by
  cases i with
  | named s => simp [RowId.genLt] at h
  | gen n =>
      simp only [RowId.genLt, decide_eq_false_iff_not] at h ⊢
      omega

theorem RowId.ne_gen_of_genLt (i : RowId) (b : Nat) (h : i.genLt b = true) :
    i ≠ .gen b := by
  cases i with
  | named s => intro hh; cases hh
  | gen n =>
      simp only [RowId.genLt, decide_eq_true_eq] at h
      intro hh
      cases hh
      omega

theorem RowId.ne_gen_of_genLt_false (i : RowId) (b k : Nat)
    (h : i.genLt b = false) (hk : k < b) : i ≠ .gen k := by
  cases i with
  | named s => simp [RowId.genLt] at h
  | gen n =>
      simp only [RowId.genLt, decide_eq_false_iff_not] at h
      intro hh
      cases hh
      omega

theorem loadCandidates_char (cid : RowId) (cds : List CandidateDef) (db db' : DefDB)
    (hok : loadCandidates cid cds db = .ok db') :
    db'.states = db.states ∧ db'.jurisdictions = db.jurisdictions ∧
    db'.precincts = db.precincts ∧
    db'.election_jurisdictions = db.election_jurisdictions ∧
    db'.contests = db.contests ∧
    db.next_id ≤ db'.next_id ∧
    ∃ s, db'.candidates = db.candidates ++ s ∧
      s.map (fun r => (r.name, r.definitions_file_id)) =
        cds.map (fun cd => (cd.name, DefFileId.str cd.id)) ∧
      (∀ r ∈ s, r.contest_id = cid) ∧
      ((db.candidates.map fun x => (x.contest_id, x.name)).Nodup →
        (db'.candidates.map fun x => (x.contest_id, x.name)).Nodup) := by
  induction cds generalizing db with
  | nil =>
      rw [loadCandidates] at hok
      cases hok
      exact ⟨rfl, rfl, rfl, rfl, rfl, Nat.le_refl _, [], by simp, by simp, by simp,
        fun h => h⟩
  | cons cd rest ih =>
      rw [loadCandidates] at hok
      split at hok
      · cases hok
      rename_i db₂ hic
      obtain ⟨hdb₂, habs⟩ := insertCandidate_ok _ _ _ hic
      subst hdb₂
      obtain ⟨hs, hj, hp, he, hc, hnext, s, hcand, hmap, hcid, hnod⟩ := ih _ hok
      refine ⟨hs, hj, hp, he, hc, Nat.le_trans (Nat.le_succ _) hnext,
        ⟨.gen db.next_id, cd.name, .str cd.id, cid⟩ :: s, ?_, ?_, ?_, ?_⟩
      · rw [hcand]
        simp
      · simp only [List.map_cons, hmap]
      · intro r hr
        rcases List.mem_cons.mp hr with hr | hr
        · rw [hr]
        · exact hcid r hr
      · intro hn
        apply hnod
        exact nodup_key_append db.candidates _ _ hn habs

theorem loadContestWith_char (eid : RowId) (ct : ContestDef) (cid : RowId)
    (db db' : DefDB) (hok : loadContestWith eid ct cid db = .ok db') :
    db'.states = db.states ∧ db'.jurisdictions = db.jurisdictions ∧
    db'.precincts = db.precincts ∧
    db'.election_jurisdictions = db.election_jurisdictions ∧
    db'.contests = db.contests ++
      [⟨cid, ct.title, ct.type, ct.seats, ct.allowWriteIns, .str ct.id, eid⟩] ∧
    db.next_id ≤ db'.next_id ∧
    ((db.contests.map fun x => (x.election_id, x.name)).Nodup →
      (db'.contests.map fun x => (x.election_id, x.name)).Nodup) ∧
    ∃ s, db'.candidates = db.candidates ++ s ∧
      s.map (fun r => (r.name, r.definitions_file_id)) =
        ct.candidates.map (fun cd => (cd.name, DefFileId.str cd.id)) ++
          (if ct.allowWriteIns then [("Write-in", DefFileId.int ct.candidates.length)]
           else []) ∧
      (∀ r ∈ s, r.contest_id = cid) ∧
      ((db.candidates.map fun x => (x.contest_id, x.name)).Nodup →
        (db'.candidates.map fun x => (x.contest_id, x.name)).Nodup) := by
  unfold loadContestWith at hok
  split at hok
  · cases hok
  rename_i db₂ hic
  obtain ⟨hdb₂, habs⟩ := insertContest_ok _ _ _ hic
  subst hdb₂
  split at hok
  · cases hok
  rename_i db₃ hlc
  obtain ⟨h3s, h3j, h3p, h3e, h3c, h3next, s, h3cand, h3map, h3cid, h3nod⟩ :=
    loadCandidates_char cid ct.candidates _ _ hlc
  cases hw : ct.allowWriteIns with
  | false =>
      rw [hw] at hok
      simp only [Bool.false_eq_true, if_false] at hok
      cases hok
      refine ⟨h3s, h3j, h3p, h3e, by rw [h3c, hw], h3next, ?_, s, h3cand, ?_, h3cid,
        h3nod⟩
      · intro hn
        rw [h3c]
        exact nodup_key_append db.contests _ _ hn habs
      · rw [h3map]
        simp
  | true =>
      rw [hw] at hok
      simp only [if_true] at hok
      obtain ⟨hdb', habs'⟩ := insertCandidate_ok _ _ _ hok
      subst hdb'
      refine ⟨h3s, h3j, h3p, h3e, by rw [h3c, hw], ?_, ?_, s ++ [⟨.gen db₃.next_id,
        "Write-in", .int ct.candidates.length, cid⟩], ?_, ?_, ?_, ?_⟩
      · exact Nat.le_trans h3next (Nat.le_succ _)
      · intro hn
        rw [h3c]
        exact nodup_key_append db.contests _ _ hn habs
      · rw [h3cand]
        simp
      · rw [List.map_append, h3map]
        simp
      · intro r hr
        rcases List.mem_append.mp hr with hr | hr
        · exact h3cid r hr
        · rw [List.mem_singleton.mp hr]
      · intro hn
        exact nodup_key_append db₃.candidates _ _ (h3nod hn) habs'

theorem RowId.gen_genLt (n b : Nat) (h : n < b) : (RowId.gen n).genLt b = true := by
  simp only [RowId.genLt, decide_eq_true_eq]
  exact h

theorem RowId.gen_genLt_false (n b : Nat) (h : b ≤ n) :
    (RowId.gen n).genLt b = false := by
  simp only [RowId.genLt, decide_eq_false_iff_not]
  omega

theorem loadContests_char (eid : RowId) (cts : List ContestDef) (db db' : DefDB)
    (hok : loadContests eid cts db = .ok db')
    (hcb : ∀ r ∈ db.candidates, r.contest_id.genLt db.next_id = true) :
    db'.states = db.states ∧ db'.jurisdictions = db.jurisdictions ∧
    db'.precincts = db.precincts ∧
    db'.election_jurisdictions = db.election_jurisdictions ∧
    db.next_id ≤ db'.next_id ∧
    (∃ sc, db'.contests = db.contests ++ sc) ∧
    (∃ s, db'.candidates = db.candidates ++ s ∧
      ∀ r ∈ s, r.contest_id.genLt db.next_id = false ∧
        r.contest_id.genLt db'.next_id = true) ∧
    ((db.contests.map fun x => (x.election_id, x.name)).Nodup →
      (db'.contests.map fun x => (x.election_id, x.name)).Nodup) ∧
    ((db.candidates.map fun x => (x.contest_id, x.name)).Nodup →
      (db'.candidates.map fun x => (x.contest_id, x.name)).Nodup) ∧
    ∀ ct ∈ cts, ∃ crow ∈ db'.contests,
      crow.election_id = eid ∧ crow.name = ct.title ∧
      (db'.candidates.filter fun r => r.contest_id == crow.id).map
          (fun r => (r.name, r.definitions_file_id)) =
        ct.candidates.map (fun cd => (cd.name, DefFileId.str cd.id)) ++
          (if ct.allowWriteIns then [("Write-in", DefFileId.int ct.candidates.length)]
           else []) := by
  induction cts generalizing db with
  | nil =>
      rw [loadContests] at hok
      cases hok
      exact ⟨rfl, rfl, rfl, rfl, Nat.le_refl _, ⟨[], by simp⟩,
        ⟨[], by simp, by simp⟩, fun h => h, fun h => h, by simp⟩
  | cons ct rest ih =>
      rw [loadContests] at hok
      split at hok
      · cases hok
      rename_i db₂ hlc
      rw [loadContest] at hlc
      obtain ⟨h2s0, h2j0, h2p0, h2e0, h2c0, h2next0, h2cn0, s₁, h2cand0, h2map,
        h2cid, h2cnod0⟩ :=
        loadContestWith_char eid ct (.gen db.next_id)
          { db with next_id := db.next_id + 1 } db₂ hlc
      have h2s : db₂.states = db.states := h2s0
      have h2j : db₂.jurisdictions = db.jurisdictions := h2j0
      have h2p : db₂.precincts = db.precincts := h2p0
      have h2e : db₂.election_jurisdictions = db.election_jurisdictions := h2e0
      have h2c : db₂.contests = db.contests ++
          [⟨.gen db.next_id, ct.title, ct.type, ct.seats, ct.allowWriteIns,
            .str ct.id, eid⟩] := h2c0
      have h2next : db.next_id + 1 ≤ db₂.next_id := h2next0
      have h2cn : (db.contests.map fun x => (x.election_id, x.name)).Nodup →
          (db₂.contests.map fun x => (x.election_id, x.name)).Nodup := h2cn0
      have h2cand : db₂.candidates = db.candidates ++ s₁ := h2cand0
      have h2cnod : (db.candidates.map fun x => (x.contest_id, x.name)).Nodup →
          (db₂.candidates.map fun x => (x.contest_id, x.name)).Nodup := h2cnod0
      have hcb₂ : ∀ r ∈ db₂.candidates, r.contest_id.genLt db₂.next_id = true := by
        intro r hr
        rw [h2cand] at hr
        rcases List.mem_append.mp hr with hr | hr
        · exact RowId.genLt_mono _ _ _ (by omega) (hcb r hr)
        · rw [h2cid r hr]
          exact RowId.gen_genLt _ _ (by omega)
      obtain ⟨hs, hj, hp, he, hnext, ⟨sc₂, hsc⟩, ⟨s₂, hcand₂, hs₂⟩, hcn₂, hcnod₂,
        hpres⟩ := ih db₂ hok hcb₂
      have hfnil : db.candidates.filter
          (fun r => r.contest_id == RowId.gen db.next_id) = [] := by
        rw [List.filter_eq_nil_iff]
        intro r hr
        rw [Bool.not_eq_true, beq_eq_false_iff_ne]
        exact RowId.ne_gen_of_genLt _ _ (hcb r hr)
      have hfs₁ : s₁.filter (fun r => r.contest_id == RowId.gen db.next_id) = s₁ := by
        rw [List.filter_eq_self]
        intro r hr
        rw [h2cid r hr]
        simp
      have hfs₂ : s₂.filter (fun r => r.contest_id == RowId.gen db.next_id) = [] := by
        rw [List.filter_eq_nil_iff]
        intro r hr
        rw [Bool.not_eq_true, beq_eq_false_iff_ne]
        exact RowId.ne_gen_of_genLt_false _ _ _ (hs₂ r hr).1 (by omega)
      have hfilter : (db'.candidates.filter
          fun r => r.contest_id == RowId.gen db.next_id) = s₁ := by
        rw [hcand₂, h2cand, List.filter_append, List.filter_append, hfnil, hfs₁, hfs₂]
        simp
      refine ⟨by rw [hs, h2s], by rw [hj, h2j], by rw [hp, h2p], by rw [he, h2e],
        by omega, ⟨[⟨.gen db.next_id, ct.title, ct.type, ct.seats, ct.allowWriteIns,
          .str ct.id, eid⟩] ++ sc₂, by rw [hsc, h2c]; simp⟩,
        ⟨s₁ ++ s₂, by rw [hcand₂, h2cand]; simp, ?_⟩,
        fun h => hcn₂ (h2cn h), fun h => hcnod₂ (h2cnod h), ?_⟩
      · intro r hr
        rcases List.mem_append.mp hr with hr | hr
        · constructor
          · rw [h2cid r hr]
            exact RowId.gen_genLt_false _ _ (Nat.le_refl _)
          · rw [h2cid r hr]
            exact RowId.gen_genLt _ _ (by omega)
        · exact ⟨RowId.genLt_false_mono _ _ _ (by omega) (hs₂ r hr).1, (hs₂ r hr).2⟩
      · intro ct' hct'
        rcases List.mem_cons.mp hct' with hct' | hct'
        · subst hct'
          refine ⟨⟨.gen db.next_id, ct'.title, ct'.type, ct'.seats, ct'.allowWriteIns,
            .str ct'.id, eid⟩, ?_, rfl, rfl, ?_⟩
          · rw [hsc, h2c]
            exact List.mem_append_left _ (List.mem_append_right _ (by simp))
          · rw [show ((⟨.gen db.next_id, ct'.title, ct'.type, ct'.seats,
              ct'.allowWriteIns, .str ct'.id, eid⟩ : ContestRow)).id =
                RowId.gen db.next_id from rfl, hfilter]
            exact h2map
        · exact hpres ct' hct'

theorem resolveState_congr (db₂ db : DefDB) (s : String)
    (h : db₂.states = db.states) : resolveState db₂ s = resolveState db s := by
  unfold resolveState
  rw [h]

theorem insertEJ_dup (db : DefDB) (eid jid : RowId)
    (h : (db.election_jurisdictions.any fun r =>
      (r.election_id, r.jurisdiction_id) == (eid, jid)) = true) :
    insertEJ db eid jid = .error (.uniqueViolation "election_jurisdiction_pkey") := by
  unfold insertEJ
  rw [if_pos h]

theorem insertContest_dup (db : DefDB) (c : ContestRow)
    (h : (db.contests.any fun x =>
      (x.election_id, x.name) == (c.election_id, c.name)) = true) :
    insertContest db c =
      .error (.uniqueViolation ("contest_election_id_name_key (" ++ c.name ++ ")")) := by
  unfold insertContest
  rw [if_pos h]

theorem loadCounties_head_dup (eid stateId : RowId) (c : CountyDef)
    (rest : List CountyDef) (db : DefDB) (j : JurisdictionRow)
    (hr : resolveCounty db stateId c.name = .ok (some j))
    (hdup : (db.election_jurisdictions.any fun r =>
      (r.election_id, r.jurisdiction_id) == (eid, j.id)) = true) :
    loadCounties eid stateId (c :: rest) db =
      .error (.uniqueViolation "election_jurisdiction_pkey") := by
  rw [loadCounties_cons_some eid stateId c rest db j hr,
    insertEJ_dup db eid j.id hdup]

theorem loadContests_head_dup (eid : RowId) (ct : ContestDef)
    (rest : List ContestDef) (db : DefDB)
    (hdup : (db.contests.any fun x =>
      (x.election_id, x.name) == (eid, ct.title)) = true) :
    loadContests eid (ct :: rest) db =
      .error (.uniqueViolation ("contest_election_id_name_key (" ++ ct.title ++ ")")) := by
  have h1 : loadContest eid ct db =
      .error (.uniqueViolation ("contest_election_id_name_key (" ++ ct.title ++ ")")) := by
    rw [loadContest, loadContestWith,
      insertContest_dup { db with next_id := db.next_id + 1 }
        ⟨.gen db.next_id, ct.title, ct.type, ct.seats, ct.allowWriteIns,
          .str ct.id, eid⟩ hdup]
  rw [loadContests, h1]

theorem bulk_update_ok_char (db : DefDB) (eid : RowId) (doc : DefinitionJson)
    (db₁ : DefDB) (hwf : db.WF)
    (hok : bulk_update_from_definitions db eid doc = .ok db₁) :
    ∃ st ∈ db.states, resolveState db doc.state = .ok (some st) ∧
      db₁.states = db.states ∧ db₁.jurisdictions = db.jurisdictions ∧
      db₁.WF ∧
      (∀ c ∈ doc.counties, ∃ j ∈ db.jurisdictions,
        (j.name, j.state_id) = (countyNameKey c.name, st.id) ∧
        (⟨eid, j.id⟩ : EJRow) ∈ db₁.election_jurisdictions ∧
        ∀ p ∈ c.precincts, ∃ row ∈ db₁.precincts,
          (row.name, row.jurisdiction_id) = (p.name, j.id)) ∧
      (∀ ct ∈ doc.contests, ∃ crow ∈ db₁.contests,
        crow.election_id = eid ∧ crow.name = ct.title ∧
        (db₁.candidates.filter fun r => r.contest_id == crow.id).map
            (fun r => (r.name, r.definitions_file_id)) =
          ct.candidates.map (fun cd => (cd.name, DefFileId.str cd.id)) ++
            (if ct.allowWriteIns then
              [("Write-in", DefFileId.int ct.candidates.length)]
             else [])) := by
  obtain ⟨hsn, hjn, hpn, hejn, hctn, hcdn, hcb⟩ := hwf
  unfold bulk_update_from_definitions at hok
  split at hok
  · cases hok
  · cases hok
  rename_i st hst
  split at hok
  · cases hok
  rename_i db₂ hlc
  obtain ⟨h2s, h2j, h2c, h2cd, ⟨se, h2e⟩, ⟨sp, h2p⟩, h2next, h2pn, h2ejn, hcpres⟩ :=
    loadCounties_char eid st.id doc.counties db db₂ hlc hpn hejn
  have hcb₂ : ∀ r ∈ db₂.candidates, r.contest_id.genLt db₂.next_id = true := by
    intro r hr
    rw [h2cd] at hr
    exact RowId.genLt_mono _ _ _ h2next (hcb r hr)
  obtain ⟨h1s, h1j, h1p, h1e, h1next, ⟨sc, h1c⟩, ⟨scd, h1cd, h1cdlt⟩, h1cn, h1cdn,
    hctpres⟩ := loadContests_char eid doc.contests db₂ db₁ hok hcb₂
  have hstmem := oneOrNone_ok_some _ _ hst
  refine ⟨st, List.mem_of_mem_filter hstmem, hst, by rw [h1s, h2s],
    by rw [h1j, h2j], ?_, ?_, hctpres⟩
  · refine ⟨by rw [h1s, h2s]; exact hsn, by rw [h1j, h2j]; exact hjn,
      by rw [h1p]; exact h2pn, by rw [h1e]; exact h2ejn,
      h1cn (by rw [h2c]; exact hctn), h1cdn (by rw [h2cd]; exact hcdn), ?_⟩
    intro r hr
    rw [h1cd, h2cd] at hr
    rcases List.mem_append.mp hr with hr | hr
    · exact RowId.genLt_mono _ _ _ (Nat.le_trans h2next h1next) (hcb r hr)
    · exact (h1cdlt r hr).2
  · intro c hc
    obtain ⟨j, hjm, hjk, hje, hjp⟩ := hcpres c hc
    refine ⟨j, hjm, hjk, by rw [h1e]; exact hje, ?_⟩
    intro p hp
    obtain ⟨row, hrm, hrk⟩ := hjp p hp
    exact ⟨row, by rw [h1p]; exact hrm, hrk⟩

/-- C3 (amended): from a database satisfying the storage invariants, a
successful `bulk_update_from_definitions` load leaves every declared
precinct exactly once per its resolved jurisdiction and every
contest/candidate pair exactly once per election; loading the same document
a second time for the same election fails with a conflict-kind error and
duplicates no rows — provided the document declares at least one county or
contest (a document with no counties and no contests reloads successfully
as a no-op). -/
theorem bulk_update_load_unique_reload_conflict (db : DefDB) (eid : RowId)
    (doc : DefinitionJson) (db₁ : DefDB) (hwf : db.WF)
    (hok : bulk_update_from_definitions db eid doc = .ok db₁) :
    (∀ c ∈ doc.counties, ∃ j ∈ db₁.jurisdictions,
      j.name = countyNameKey c.name ∧
      ∀ p ∈ c.precincts, (db₁.precincts.filter fun x =>
        (x.name, x.jurisdiction_id) == (p.name, j.id)).length = 1) ∧
    (∀ ct ∈ doc.contests,
      (db₁.contests.filter fun x =>
        (x.election_id, x.name) == (eid, ct.title)).length = 1 ∧
      ∃ crow ∈ db₁.contests, crow.election_id = eid ∧ crow.name = ct.title ∧
        ∀ cd ∈ ct.candidates, (db₁.candidates.filter fun x =>
          (x.contest_id, x.name) == (crow.id, cd.name)).length = 1) ∧
    ((doc.counties ≠ [] ∨ doc.contests ≠ []) →
      ∃ e, runBulkUpdateFromDefinitions db₁ eid doc = (db₁, some e) ∧
        e.isConflictKind = true) := by
  have hjn : (db.jurisdictions.map fun j => (j.name, j.state_id)).Nodup := hwf.2.1
  obtain ⟨st, hstm, hst, h1s, h1j, hwf₁, hcounty, hcontest⟩ :=
    bulk_update_ok_char db eid doc db₁ hwf hok
  obtain ⟨hsn1, hjn1, hpn1, hejn1, hctn1, hcdn1, hcb1⟩ := hwf₁
  refine ⟨?_, ?_, ?_⟩
  · intro c hc
    obtain ⟨j, hjm, hjk, hje, hjp⟩ := hcounty c hc
    refine ⟨j, by rw [h1j]; exact hjm, congrArg Prod.fst hjk, ?_⟩
    intro p hp
    obtain ⟨row, hrm, hrk⟩ := hjp p hp
    have hsing : db₁.precincts.filter
        (fun x => (x.name, x.jurisdiction_id) == (p.name, j.id)) = [row] := by
      rw [← hrk]
      exact filter_key_eq_singleton db₁.precincts
        (fun x => (x.name, x.jurisdiction_id)) row hpn1 hrm
    rw [hsing]
    rfl
  · intro ct hct
    obtain ⟨crow, hcm, hcel, hcname, hmap⟩ := hcontest ct hct
    constructor
    · have hsing : db₁.contests.filter
          (fun x => (x.election_id, x.name) == (eid, ct.title)) = [crow] := by
        rw [← hcel, ← hcname]
        exact filter_key_eq_singleton db₁.contests
          (fun x => (x.election_id, x.name)) crow hctn1 hcm
      rw [hsing]
      rfl
    · refine ⟨crow, hcm, hcel, hcname, ?_⟩
      intro cd hcd
      have hmem : (cd.name, DefFileId.str cd.id) ∈
          (db₁.candidates.filter fun r => r.contest_id == crow.id).map
            (fun r => (r.name, r.definitions_file_id)) := by
        rw [hmap]
        exact List.mem_append_left _ (List.mem_map_of_mem _ hcd)
      obtain ⟨r, hrmem, hrEq⟩ := List.mem_map.mp hmem
      have hrdb : r ∈ db₁.candidates := List.mem_of_mem_filter hrmem
      have hrcid0 := List.of_mem_filter hrmem
      have hrcid : r.contest_id = crow.id := beq_iff_eq.mp hrcid0
      have hrname : r.name = cd.name := congrArg Prod.fst hrEq
      have hsing : db₁.candidates.filter
          (fun x => (x.contest_id, x.name) == (crow.id, cd.name)) = [r] := by
        rw [← hrcid, ← hrname]
        exact filter_key_eq_singleton db₁.candidates
          (fun x => (x.contest_id, x.name)) r hcdn1 hrdb
      rw [hsing]
      rfl
  · intro hne
    have hres₁ : resolveState db₁ doc.state = .ok (some st) := by
      rw [resolveState_congr db₁ db doc.state h1s]
      exact hst
    cases hcs : doc.counties with
    | cons c0 cs =>
        obtain ⟨j, hjm, hjk, hje, -⟩ :=
          hcounty c0 (by rw [hcs]; exact List.mem_cons_self c0 cs)
        have hrc : resolveCounty db₁ st.id c0.name = .ok (some j) := by
          rw [resolveCounty_congr db₁ db st.id c0.name h1j]
          unfold resolveCounty
          have hflt : db.jurisdictions.filter
              (fun x => (x.name, x.state_id) == (countyNameKey c0.name, st.id)) =
                [j] := by
            rw [← hjk]
            exact filter_key_eq_singleton db.jurisdictions
              (fun x => (x.name, x.state_id)) j hjn hjm
          rw [hflt]
          rfl
        have hdup : (db₁.election_jurisdictions.any fun r =>
            (r.election_id, r.jurisdiction_id) == (eid, j.id)) = true :=
          any_key_of_mem db₁.election_jurisdictions
            (fun r => (r.election_id, r.jurisdiction_id)) ⟨eid, j.id⟩ hje
        have hbu : bulk_update_from_definitions db₁ eid doc =
            .error (.uniqueViolation "election_jurisdiction_pkey") := by
          rw [bulk_update_resolved db₁ eid doc st hres₁, hcs,
            loadCounties_head_dup eid st.id c0 cs db₁ j hrc hdup]
        refine ⟨.uniqueViolation "election_jurisdiction_pkey", ?_, rfl⟩
        unfold runBulkUpdateFromDefinitions
        rw [hbu]
    | nil =>
        have hcts : doc.contests ≠ [] := by
          rcases hne with h | h
          · rw [hcs] at h
            exact absurd rfl h
          · exact h
        cases hcts2 : doc.contests with
        | nil => exact absurd hcts2 hcts
        | cons ct0 cr =>
            obtain ⟨crow, hcm, hcel, hcname, -⟩ :=
              hcontest ct0 (by rw [hcts2]; exact List.mem_cons_self ct0 cr)
            have hdup : (db₁.contests.any fun x =>
                (x.election_id, x.name) == (eid, ct0.title)) = true := by
              rw [← hcel, ← hcname]
              exact any_key_of_mem db₁.contests
                (fun x => (x.election_id, x.name)) crow hcm
            have hload : loadContests eid doc.contests db₁ =
                .error (.uniqueViolation
                  ("contest_election_id_name_key (" ++ ct0.title ++ ")")) := by
              rw [hcts2]
              exact loadContests_head_dup eid ct0 cr db₁ hdup
            have hbu : bulk_update_from_definitions db₁ eid doc =
                .error (.uniqueViolation
                  ("contest_election_id_name_key (" ++ ct0.title ++ ")")) := by
              rw [bulk_update_resolved db₁ eid doc st hres₁, hcs, loadCounties]
              exact hload
            refine ⟨.uniqueViolation
              ("contest_election_id_name_key (" ++ ct0.title ++ ")"), ?_, rfl⟩
            unfold runBulkUpdateFromDefinitions
            rw [hbu]

/-- A pre-seeded database for exercising the loader: one state and one
jurisdiction of that state. -/
def c3db : DefDB :=
  ⟨[⟨.named "s1", "Kansas"⟩], [⟨.named "j1", "Johnson", .named "s1"⟩],
    [], [], [], [], 0⟩

/-- A definitions document declaring one county with one precinct and one
contest (write-ins allowed) with one candidate. -/
def c3doc : DefinitionJson :=
  ⟨"t", "Kansas", [⟨"c1", "Johnson County", [⟨"p1", "P1"⟩]⟩],
    [⟨"ct1", "general", "Mayor", 1, true, [⟨"cd1", "Alice"⟩]⟩]⟩

/-- The database produced by loading `c3doc` into `c3db`. -/
def c3dbAfter : DefDB :=
  ⟨[⟨.named "s1", "Kansas"⟩], [⟨.named "j1", "Johnson", .named "s1"⟩],
    [⟨.gen 0, "P1", .str "p1", .named "j1"⟩], [⟨.named "e1", .named "j1"⟩],
    [⟨.gen 1, "Mayor", "general", 1, true, .str "ct1", .named "e1"⟩],
    [⟨.gen 2, "Alice", .str "cd1", .gen 1⟩, ⟨.gen 3, "Write-in", .int 1, .gen 1⟩],
    4⟩

/-- C3 counterexample: a definitions document with no counties and no
contests loads successfully twice — the second
`bulk_update_from_definitions` run reports no error at all, so reloading
the same document does not always fail with a conflict. -/
theorem bulk_update_empty_doc_reload_counterexample :
    DefDB.WF ⟨[⟨.named "s1", "Kansas"⟩], [], [], [], [], [], 0⟩ ∧
    bulk_update_from_definitions ⟨[⟨.named "s1", "Kansas"⟩], [], [], [], [], [], 0⟩
      (.named "e1") ⟨"t", "Kansas", [], []⟩ =
      .ok ⟨[⟨.named "s1", "Kansas"⟩], [], [], [], [], [], 0⟩ ∧
    runBulkUpdateFromDefinitions ⟨[⟨.named "s1", "Kansas"⟩], [], [], [], [], [], 0⟩
      (.named "e1") ⟨"t", "Kansas", [], []⟩ =
      (⟨[⟨.named "s1", "Kansas"⟩], [], [], [], [], [], 0⟩, none) := by
  refine ⟨by decide, by decide, by decide⟩

theorem bulk_update_load_unique_reload_witness :
    DefDB.WF c3db ∧
    bulk_update_from_definitions c3db (.named "e1") c3doc = .ok c3dbAfter ∧
    ((∀ c ∈ c3doc.counties, ∃ j ∈ c3dbAfter.jurisdictions,
        j.name = countyNameKey c.name ∧
        ∀ p ∈ c.precincts, (c3dbAfter.precincts.filter fun x =>
          (x.name, x.jurisdiction_id) == (p.name, j.id)).length = 1) ∧
      (∀ ct ∈ c3doc.contests,
        (c3dbAfter.contests.filter fun x =>
          (x.election_id, x.name) == (RowId.named "e1", ct.title)).length = 1 ∧
        ∃ crow ∈ c3dbAfter.contests, crow.election_id = .named "e1" ∧
          crow.name = ct.title ∧
          ∀ cd ∈ ct.candidates, (c3dbAfter.candidates.filter fun x =>
            (x.contest_id, x.name) == (crow.id, cd.name)).length = 1) ∧
      ((c3doc.counties ≠ [] ∨ c3doc.contests ≠ []) →
        ∃ e, runBulkUpdateFromDefinitions c3dbAfter (.named "e1") c3doc =
          (c3dbAfter, some e) ∧ e.isConflictKind = true)) :=
  ⟨by decide, by decide,
    bulk_update_load_unique_reload_conflict c3db (.named "e1") c3doc c3dbAfter
      (by decide) (by decide)⟩

/-- Ascending comparison on candidate names, as in the
`order_by="Candidate.name"` of the `Contest.candidates` relationship
(`server/models.py`). -/
def candLe (a b : CandidateRow) : Prop := strLtB b.name a.name = false

instance : DecidableRel candLe := fun a b => by
  unfold candLe
  infer_instance

/-- The `Contest.candidates` relationship of `server/models.py`: the
candidate rows of one contest, ordered by candidate name
(`order_by="Candidate.name"`). -/
def contestCandidatesOrdered (db : DefDB) (cid : RowId) : List CandidateRow :=
  List.insertionSort candLe (db.candidates.filter fun r => r.contest_id == cid)

/-- C4 (amended): after a successful load from a database satisfying the
storage invariants, a contest with `allowWriteIns = true` and N declared
candidates has exactly N+1 candidate rows, and the row last in insertion
order is named `Write-in` and carries N as its external definitions-file
identifier — but under the `Contest.candidates` relationship ordering of
`models.py` (by candidate name) it need not come last; a contest with
`allowWriteIns = false` gets exactly its N declared candidates. -/
theorem bulk_update_write_in_candidates (db : DefDB) (eid : RowId)
    (doc : DefinitionJson) (db₁ : DefDB) (hwf : db.WF)
    (hok : bulk_update_from_definitions db eid doc = .ok db₁) :
    ∀ ct ∈ doc.contests, ∃ crow ∈ db₁.contests,
      crow.election_id = eid ∧ crow.name = ct.title ∧
      ((db₁.candidates.filter fun r => r.contest_id == crow.id).length =
        ct.candidates.length + (if ct.allowWriteIns then 1 else 0)) ∧
      (ct.allowWriteIns = true →
        ∃ w, (db₁.candidates.filter fun r => r.contest_id == crow.id).getLast? =
            some w ∧
          w.name = "Write-in" ∧
          w.definitions_file_id = DefFileId.int ct.candidates.length) ∧
      (ct.allowWriteIns = false →
        (db₁.candidates.filter fun r => r.contest_id == crow.id).map
            (fun r => (r.name, r.definitions_file_id)) =
          ct.candidates.map fun cd => (cd.name, DefFileId.str cd.id)) := by
  obtain ⟨st, hstm, hst, h1s, h1j, hwf₁, hcounty, hcontest⟩ :=
    bulk_update_ok_char db eid doc db₁ hwf hok
  intro ct hct
  obtain ⟨crow, hcm, hcel, hcname, hmap⟩ := hcontest ct hct
  refine ⟨crow, hcm, hcel, hcname, ?_, ?_, ?_⟩
  · have hlen := congrArg List.length hmap
    rw [List.length_map, List.length_append, List.length_map] at hlen
    rw [hlen]
    cases hw : ct.allowWriteIns <;> simp [hw]
  · intro hw
    have hmap2 : (db₁.candidates.filter fun r => r.contest_id == crow.id).map
        (fun r => (r.name, r.definitions_file_id)) =
        ct.candidates.map (fun cd => (cd.name, DefFileId.str cd.id)) ++
          [("Write-in", DefFileId.int ct.candidates.length)] := by
      rw [hmap, hw]
      simp
    have hgl : ((db₁.candidates.filter fun r => r.contest_id == crow.id).map
        (fun r => (r.name, r.definitions_file_id))).getLast? =
        some ("Write-in", DefFileId.int ct.candidates.length) := by
      rw [hmap2]
      simp
    rw [List.getLast?_map] at hgl
    obtain ⟨w, hw1, hw2⟩ := Option.map_eq_some'.mp hgl
    exact ⟨w, hw1, congrArg Prod.fst hw2, congrArg Prod.snd hw2⟩
  · intro hw
    rw [hmap, hw]
    simp

/-- A database holding just one state, for the write-in ordering scenario. -/
def c4db : DefDB := ⟨[⟨.named "s1", "Kansas"⟩], [], [], [], [], [], 0⟩

/-- A definitions document with one write-in contest whose single declared
candidate (`Zebra`) sorts after `Write-in` by name. -/
def c4doc : DefinitionJson :=
  ⟨"t", "Kansas", [], [⟨"ct1", "general", "Mayor", 1, true, [⟨"cd1", "Zebra"⟩]⟩]⟩

/-- The database produced by loading `c4doc` into `c4db`. -/
def c4dbAfter : DefDB :=
  ⟨[⟨.named "s1", "Kansas"⟩], [], [], [],
    [⟨.gen 0, "Mayor", "general", 1, true, .str "ct1", .named "e1"⟩],
    [⟨.gen 1, "Zebra", .str "cd1", .gen 0⟩, ⟨.gen 2, "Write-in", .int 1, .gen 0⟩],
    3⟩

/-- C4 counterexample: after loading a write-in contest whose declared
candidate is named `Zebra`, the `Contest.candidates` relationship (ordered
by candidate name, as in `models.py`) lists `Write-in` first and ends with
`Zebra`, so the row named `Write-in` is not the last one under the
relationship's order. -/
theorem write_in_not_last_by_name_counterexample :
    DefDB.WF c4db ∧
    bulk_update_from_definitions c4db (.named "e1") c4doc = .ok c4dbAfter ∧
    ((contestCandidatesOrdered c4dbAfter (.gen 0)).map fun r => r.name) =
      ["Write-in", "Zebra"] ∧
    (contestCandidatesOrdered c4dbAfter (.gen 0)).getLast? =
      some ⟨.gen 1, "Zebra", .str "cd1", .gen 0⟩ ∧
    (⟨.gen 1, "Zebra", .str "cd1", .gen 0⟩ : CandidateRow).name ≠ "Write-in" := by
  refine ⟨by decide, by decide, by decide, by decide, by decide⟩

theorem bulk_update_write_in_witness :
    DefDB.WF c4db ∧
    bulk_update_from_definitions c4db (.named "e1") c4doc = .ok c4dbAfter ∧
    (∀ ct ∈ c4doc.contests, ∃ crow ∈ c4dbAfter.contests,
      crow.election_id = .named "e1" ∧ crow.name = ct.title ∧
      ((c4dbAfter.candidates.filter fun r => r.contest_id == crow.id).length =
        ct.candidates.length + (if ct.allowWriteIns then 1 else 0)) ∧
      (ct.allowWriteIns = true →
        ∃ w, (c4dbAfter.candidates.filter fun r =>
            r.contest_id == crow.id).getLast? = some w ∧
          w.name = "Write-in" ∧
          w.definitions_file_id = DefFileId.int ct.candidates.length) ∧
      (ct.allowWriteIns = false →
        (c4dbAfter.candidates.filter fun r => r.contest_id == crow.id).map
            (fun r => (r.name, r.definitions_file_id)) =
          ct.candidates.map fun cd => (cd.name, DefFileId.str cd.id))) :=
  ⟨by decide, by decide,
    bulk_update_write_in_candidates c4db (.named "e1") c4doc c4dbAfter
      (by decide) (by decide)⟩

end ElRep
